import Mathlib

/-!
Shallow embedding of the token-aggregation service (TypeScript sources:
csvParser.ts, apiClients.ts, tokenAggregation.ts, cacheService.ts,
websocketService.ts).  JS `Map`s are modelled as insertion-ordered
association lists, JS numbers as rationals, timestamps as naturals, and
the asynchronous pipeline as sequential state-passing functions.
-/

namespace Eterna

/-- Model of JS `Map.get`: first entry with the given key, if any. -/
def mapGet {α : Type} : List (String × α) → String → Option α
  | [], _ => none
  | (k', v) :: m, k => if k' = k then some v else mapGet m k

/-- Model of JS `Map.set`: an existing key keeps its insertion position and
has its value replaced; a new key is appended at the end (JS `Map`s iterate
in insertion order). -/
def mapSet {α : Type} : List (String × α) → String → α → List (String × α)
  | [], k, v => [(k, v)]
  | (k', v') :: m, k, v =>
    if k' = k then (k, v) :: m else (k', v') :: mapSet m k v

/-- Model of JS `Map.delete` (removes every entry with the key; a JS map has
at most one, which the no-duplicate-keys invariant reflects). -/
def mapDelete {α : Type} : List (String × α) → String → List (String × α)
  | [], _ => []
  | (k', v') :: m, k =>
    if k' = k then mapDelete m k else (k', v') :: mapDelete m k

/-- ASCII lower-casing of one character, modelling JS
`String.prototype.toLowerCase` on the ASCII alphabet used by token
addresses. -/
def lowerChar (c : Char) : Char :=
  if 65 ≤ c.toNat ∧ c.toNat ≤ 90 then Char.ofNat (c.toNat + 32) else c

/-- Lower-casing of a whole string (character-wise). -/
def lowerStr (s : String) : String :=
  String.mk (s.data.map lowerChar)

/-- csvParser.ts: one row of p1.csv. -/
structure TokenMetadata where
  name : String
  symbol : String
  tokenAddress : String
  deriving DecidableEq, Repr

/-- csvParser.ts `loadTokens`: rows with a non-empty address are stored in
the metadata map under the lower-cased address. -/
def loadTokens (rows : List TokenMetadata) : List (String × TokenMetadata) :=
  rows.foldl
    (fun m t =>
      if t.tokenAddress = "" then m else mapSet m (lowerStr t.tokenAddress) t)
    []

/-- csvParser.ts `getToken`: lookup by the lower-cased address. -/
def csvGetToken (tokens : List (String × TokenMetadata)) (address : String) :
    Option TokenMetadata :=
  mapGet tokens (lowerStr address)

/-- csvParser.ts `getAllTokens`: all stored rows in insertion order. -/
def csvGetAllTokens (tokens : List (String × TokenMetadata)) :
    List TokenMetadata :=
  tokens.map (·.2)

/-- Per-window rational values such as priceChange and volume
(fields h1, h6, h24 of TokenData). -/
structure Windows where
  h1 : ℚ
  h6 : ℚ
  h24 : ℚ
  deriving DecidableEq, Repr

/-- Buy/sell counters for one window. -/
structure TxCounts where
  buys : ℕ
  sells : ℕ
  deriving DecidableEq, Repr

/-- transactions field of TokenData: counters for each window. -/
structure TxWindows where
  h1 : TxCounts
  h6 : TxCounts
  h24 : TxCounts
  deriving DecidableEq, Repr

/-- The numeric / market part of a TokenData record.  In the TS source
these fields sit directly on the `Partial TokenData` object; they are all
written together by one `Object.assign` of a normalized payload, so they
are grouped here (all present, or — before any source contributed — all
absent). -/
structure TokenBody where
  priceUsd : ℚ
  priceNative : ℚ
  priceChange : Windows
  volume : Windows
  transactions : TxWindows
  fdv : ℚ
  marketCap : Option ℚ
  liquidity : ℚ
  pairAddress : String
  dexId : String
  deriving DecidableEq, Repr

/-- A fully-populated canonical token record, as stored in the caches and
returned to callers. -/
structure TokenData where
  tokenId : String
  name : String
  symbol : String
  chainId : String
  body : TokenBody
  sources : List String
  lastUpdated : ℕ
  deriving DecidableEq, Repr

/-- The `Partial TokenData` object built by mergeTokenData: base fields are
always present, the numeric body only once a source contributed. -/
structure MergedToken where
  tokenId : String
  name : String
  symbol : String
  chainId : String
  body : Option TokenBody
  sources : List String
  lastUpdated : ℕ
  deriving DecidableEq, Repr

/-- Rebuild a full TokenData from a merged record whose body is present. -/
def MergedToken.toTokenData (m : MergedToken) (b : TokenBody) : TokenData :=
  ⟨m.tokenId, m.name, m.symbol, m.chainId, b, m.sources, m.lastUpdated⟩

/-- Optional per-window numbers of a provider payload (absent field, or the
parsed value of the field; `none` also stands for an unparseable string,
which the normalizers below default to 0 exactly as `parseFloat(x) or 0`
does). -/
structure OptWindows where
  h1 : Option ℚ
  h6 : Option ℚ
  h24 : Option ℚ
  deriving DecidableEq, Repr

/-- Optional buy/sell counters of a provider payload. -/
structure OptTxCounts where
  buys : Option ℕ
  sells : Option ℕ
  deriving DecidableEq, Repr

/-- Optional per-window counters of a provider payload. -/
structure OptTxWindows where
  h1 : Option OptTxCounts
  h6 : Option OptTxCounts
  h24 : Option OptTxCounts
  deriving DecidableEq, Repr

/-- One DexScreener pair record (types/token.ts DexScreenerPair), with
string-typed numerics modelled by their parsed rational value. -/
structure DexScreenerPair where
  chainId : String
  priceUsd : Option ℚ
  priceNative : Option ℚ
  priceChange : Option OptWindows
  volume : Option OptWindows
  txns : Option OptTxWindows
  fdv : Option ℚ
  marketCap : Option ℚ
  pairAddress : String
  dexId : String
  deriving DecidableEq, Repr

/-- The 24h volume of a pair as read by the merge step:
`pair.volume?.h24 or 0`. -/
def dexVolH24 (p : DexScreenerPair) : ℚ :=
  ((p.volume.bind OptWindows.h24).getD 0)

/-- Top-level attributes of a GeckoTerminal token payload
(types/token.ts GeckoTerminalToken `data.attributes`).  Only the fields the
aggregation reads are modelled; name and symbol are used solely in log
lines. -/
structure GeckoTokenAttrs where
  price_usd : Option ℚ
  volume_usd_h24 : Option ℚ
  fdv_usd : Option ℚ
  market_cap_usd : Option ℚ
  total_reserve_in_usd : Option ℚ
  deriving DecidableEq, Repr

/-- Attributes of one included pool of a GeckoTerminal payload. -/
structure GeckoPoolAttrs where
  base_token_price_native_currency : ℚ
  price_change_percentage : Option OptWindows
  volume_usd : Option OptWindows
  transactions : Option OptTxWindows
  address : String
  deriving DecidableEq, Repr

/-- A GeckoTerminal token payload: token attributes plus the included
pools (normalization uses only the first pool). -/
structure GeckoTerminalToken where
  attrs : GeckoTokenAttrs
  included : List GeckoPoolAttrs
  deriving DecidableEq, Repr

/-- tokenAggregation.ts `normalizeDexScreenerData`: normalize one
DexScreener pair to the canonical shape.  `now` is the `new Date()`
timestamp taken when the record is built. -/
def normalizeDexScreenerData (pair : DexScreenerPair) (metadata : TokenMetadata)
    (now : ℕ) : TokenData :=
  { tokenId := metadata.tokenAddress
    name := metadata.name
    symbol := metadata.symbol
    chainId := pair.chainId
    body :=
      { priceUsd := pair.priceUsd.getD 0
        priceNative := pair.priceNative.getD 0
        priceChange :=
          ⟨(pair.priceChange.bind OptWindows.h1).getD 0,
           (pair.priceChange.bind OptWindows.h6).getD 0,
           (pair.priceChange.bind OptWindows.h24).getD 0⟩
        volume :=
          ⟨(pair.volume.bind OptWindows.h1).getD 0,
           (pair.volume.bind OptWindows.h6).getD 0,
           (pair.volume.bind OptWindows.h24).getD 0⟩
        transactions :=
          ⟨⟨((pair.txns.bind OptTxWindows.h1).bind OptTxCounts.buys).getD 0,
            ((pair.txns.bind OptTxWindows.h1).bind OptTxCounts.sells).getD 0⟩,
           ⟨((pair.txns.bind OptTxWindows.h6).bind OptTxCounts.buys).getD 0,
            ((pair.txns.bind OptTxWindows.h6).bind OptTxCounts.sells).getD 0⟩,
           ⟨((pair.txns.bind OptTxWindows.h24).bind OptTxCounts.buys).getD 0,
            ((pair.txns.bind OptTxWindows.h24).bind OptTxCounts.sells).getD 0⟩⟩
        fdv := pair.fdv.getD 0
        -- `pair.marketCap or null`: the falsy value 0 is also mapped to null
        marketCap :=
          match pair.marketCap with
          | some v => if v = 0 then none else some v
          | none => none
        liquidity := 0
        pairAddress := pair.pairAddress
        dexId := pair.dexId }
    sources := ["dexscreener"]
    lastUpdated := now }

/-- tokenAggregation.ts `normalizeGeckoTerminalData`: normalize a
GeckoTerminal payload (using its first included pool, when present). -/
def normalizeGeckoTerminalData (data : GeckoTerminalToken)
    (metadata : TokenMetadata) (now : ℕ) : TokenData :=
  let pool := data.included.head?
  let attributes := data.attrs
  { tokenId := metadata.tokenAddress
    name := metadata.name
    symbol := metadata.symbol
    chainId := "solana"
    body :=
      { priceUsd := attributes.price_usd.getD 0
        priceNative :=
          match pool with
          | some p => p.base_token_price_native_currency
          | none => 0
        priceChange :=
          ⟨((pool.bind GeckoPoolAttrs.price_change_percentage).bind
              OptWindows.h1).getD 0,
           ((pool.bind GeckoPoolAttrs.price_change_percentage).bind
              OptWindows.h6).getD 0,
           ((pool.bind GeckoPoolAttrs.price_change_percentage).bind
              OptWindows.h24).getD 0⟩
        volume :=
          ⟨((pool.bind GeckoPoolAttrs.volume_usd).bind OptWindows.h1).getD 0,
           ((pool.bind GeckoPoolAttrs.volume_usd).bind OptWindows.h6).getD 0,
           attributes.volume_usd_h24.getD 0⟩
        transactions :=
          ⟨⟨(((pool.bind GeckoPoolAttrs.transactions).bind
               OptTxWindows.h1).bind OptTxCounts.buys).getD 0,
            (((pool.bind GeckoPoolAttrs.transactions).bind
               OptTxWindows.h1).bind OptTxCounts.sells).getD 0⟩,
           ⟨(((pool.bind GeckoPoolAttrs.transactions).bind
               OptTxWindows.h6).bind OptTxCounts.buys).getD 0,
            (((pool.bind GeckoPoolAttrs.transactions).bind
               OptTxWindows.h6).bind OptTxCounts.sells).getD 0⟩,
           ⟨(((pool.bind GeckoPoolAttrs.transactions).bind
               OptTxWindows.h24).bind OptTxCounts.buys).getD 0,
            (((pool.bind GeckoPoolAttrs.transactions).bind
               OptTxWindows.h24).bind OptTxCounts.sells).getD 0⟩⟩
        fdv := attributes.fdv_usd.getD 0
        marketCap := attributes.market_cap_usd
        liquidity := attributes.total_reserve_in_usd.getD 0
        pairAddress := (pool.map GeckoPoolAttrs.address).getD ""
        dexId := "unknown" }
    sources := ["geckoterminal"]
    lastUpdated := now }

/-- tokenAggregation.ts mergeTokenData, line 596: JS
`dexScreenerPairs.reduce((prev, current) => cond ? current : prev)` with
the first array element as initial accumulator. -/
def bestPair (x : DexScreenerPair) (xs : List DexScreenerPair) :
    DexScreenerPair :=
  xs.foldl (fun prev current =>
    if dexVolH24 prev < dexVolH24 current then current else prev) x

/-- Recursive first-maximum selector used to reason about bestPair: keeps
the earlier element unless a strictly larger 24h volume appears later. -/
def firstMaxPair (x : DexScreenerPair) : List DexScreenerPair →
    DexScreenerPair
  | [] => x
  | y :: ys =>
    if dexVolH24 x < dexVolH24 (firstMaxPair y ys) then firstMaxPair y ys
    else x

/-- View of a TokenData as a merged record (body present). -/
def TokenData.toMerged (t : TokenData) : MergedToken :=
  ⟨t.tokenId, t.name, t.symbol, t.chainId, some t.body, t.sources,
   t.lastUpdated⟩

/-- tokenAggregation.ts `mergeTokenData`: combine the DexScreener pairs and
the optional GeckoTerminal payload into one partial record. -/
def mergeTokenData (dexScreenerPairs : List DexScreenerPair)
    (geckoTerminalData : Option GeckoTerminalToken)
    (metadata : TokenMetadata) (now : ℕ) : MergedToken :=
  -- initial partial record
  let mergedData : MergedToken :=
    ⟨metadata.tokenAddress, metadata.name, metadata.symbol, "solana", none,
     [], now⟩
  -- merge DexScreener data (take the pair with most 24h volume)
  let mergedData : MergedToken :=
    match dexScreenerPairs with
    | [] => mergedData
    | p :: ps =>
      (normalizeDexScreenerData (bestPair p ps) metadata now).toMerged
  -- merge GeckoTerminal data
  match geckoTerminalData with
  | none => mergedData
  | some g =>
    let geckoData := normalizeGeckoTerminalData g metadata now
    if mergedData.sources.length > 0 then
      match mergedData.body with
      | some b =>
        { mergedData with
          body := some
            { b with
              priceUsd := (b.priceUsd + geckoData.body.priceUsd) / 2
              volume :=
                ⟨(b.volume.h1 + geckoData.body.volume.h1) / 2,
                 (b.volume.h6 + geckoData.body.volume.h6) / 2,
                 (b.volume.h24 + geckoData.body.volume.h24) / 2⟩
              liquidity := geckoData.body.liquidity }
          sources := mergedData.sources ++ ["geckoterminal"] }
      -- unreachable: a record with a non-empty sources list has a body
      | none => mergedData
    else
      geckoData.toMerged

/-- One entry of the in-process memory cache of TokenAggregationService:
the record plus its insertion timestamp. -/
structure MemEntry where
  data : TokenData
  timestamp : ℕ
  deriving DecidableEq, Repr

/-- The mutable cache state the aggregation service works on: the bounded
in-process map, the durable Redis tier (its per-address `token:` keys), and
the single `aggregated:all` full-list entry. -/
structure AggState where
  memoryCache : List (String × MemEntry)
  redis : List (String × TokenData)
  aggregated : Option (List TokenData)
  deriving DecidableEq, Repr

/-- The in-memory cache TTL of 30000 ms (MEMORY_CACHE_TTL). -/
def MEMORY_CACHE_TTL : ℕ := 30000

/-- tokenAggregation.ts `getFromMemoryCache`: a fresh entry is returned,
an expired one is deleted on the way. -/
def getFromMemoryCache (mem : List (String × MemEntry)) (address : String)
    (now : ℕ) : Option TokenData × List (String × MemEntry) :=
  match mapGet mem address with
  | some cached =>
    if now - cached.timestamp < MEMORY_CACHE_TTL then (some cached.data, mem)
    else (none, mapDelete mem address)
  | none => (none, mem)

/-- tokenAggregation.ts `setMemoryCache`: insert, then if the map exceeds
100 entries delete the first (oldest-inserted) key.  The `if (firstKey)`
guard of the source skips deletion when the first key is the empty string
(the only falsy string). -/
def setMemoryCache (mem : List (String × MemEntry)) (address : String)
    (data : TokenData) (now : ℕ) : List (String × MemEntry) :=
  let m := mapSet mem address ⟨data, now⟩
  if 100 < m.length then
    match m with
    | [] => m
    | (firstKey, _) :: _ => if firstKey = "" then m else mapDelete m firstKey
  else m

/-- The collapsed outcome of the two Promise.allSettled provider fetches
for one address: a rejected DexScreener call yields the empty pair list and
a rejected GeckoTerminal call yields none (tokenAggregation.ts lines
669-670, and the per-address try/catch of apiClients.ts
fetchMultipleTokens). -/
structure FetchOutcome where
  dexScreener : List DexScreenerPair
  geckoTerminal : Option GeckoTerminalToken
  deriving DecidableEq, Repr

/-- The part of tokenAggregation.ts `aggregateToken` after the memory-cache
check (lines 642-691): Redis lookup, then metadata lookup, the fresh
two-provider fetch, the merge, and population of both tiers when at least
one source contributed. -/
def aggregateTokenAfterMemory (csv : List (String × TokenMetadata))
    (fetch : FetchOutcome) (st1 : AggState) (now : ℕ)
    (tokenAddress : String) : Option TokenData × AggState :=
  match mapGet st1.redis tokenAddress with
  | some cached =>
    (some cached,
     { st1 with
       memoryCache := setMemoryCache st1.memoryCache tokenAddress cached now })
  | none =>
    match csvGetToken csv tokenAddress with
    | none => (none, st1)
    | some metadata =>
      let tokenData :=
        mergeTokenData fetch.dexScreener fetch.geckoTerminal metadata now
      if tokenData.sources.isEmpty then (none, st1)
      else
        match tokenData.body with
        -- unreachable: a non-empty sources list comes with a body
        | none => (none, st1)
        | some b =>
          let td := tokenData.toTokenData b
          (some td,
           { st1 with
             redis := mapSet st1.redis tokenAddress td
             memoryCache := setMemoryCache st1.memoryCache tokenAddress td now })

/-- tokenAggregation.ts `aggregateToken`: memory cache first, then the
fetch-or-serve path above.  Returns the result and the new cache state. -/
def aggregateToken (csv : List (String × TokenMetadata))
    (fetch : FetchOutcome) (st : AggState) (now : ℕ) (tokenAddress : String) :
    Option TokenData × AggState :=
  let memLookup := getFromMemoryCache st.memoryCache tokenAddress now
  match memLookup.1 with
  | some memCached => (some memCached, { st with memoryCache := memLookup.2 })
  | none =>
    aggregateTokenAfterMemory csv fetch { st with memoryCache := memLookup.2 }
      now tokenAddress

/-- The per-address cache scan of aggregateAllTokens (lines 722-731): cache
hits are collected in order, misses keep their metadata rows in order. -/
def partitionCached (redis : List (String × TokenData)) :
    List TokenMetadata → List TokenData × List TokenMetadata
  | [] => ([], [])
  | t :: ts =>
    let rest := partitionCached redis ts
    match mapGet redis t.tokenAddress with
    | some cached => (cached :: rest.1, rest.2)
    | none => (rest.1, t :: rest.2)

/-- Fixed-size chunking with the bulk concurrency limit 2. -/
def chunk2 {α : Type} : List α → List (List α)
  | [] => []
  | [a] => [[a]]
  | a :: b :: rest => [a, b] :: chunk2 rest

/-- Processing of one fetched address inside a bulk chunk (lines 760-791):
merge, and on a non-empty sources list cache in Redis and append to the
accumulated results.  The memory cache is not touched on this path. -/
def bulkStep (csv : List (String × TokenMetadata))
    (fetchFn : String → FetchOutcome) (now : ℕ)
    (acc : List TokenData × AggState) (t : TokenMetadata) :
    List TokenData × AggState :=
  let fetched := fetchFn t.tokenAddress
  match csvGetToken csv t.tokenAddress with
  | none => acc
  | some metadata =>
    let tokenData :=
      mergeTokenData fetched.dexScreener fetched.geckoTerminal metadata now
    if tokenData.sources.isEmpty then acc
    else
      match tokenData.body with
      | none => acc
      | some b =>
        let td := tokenData.toTokenData b
        (acc.1 ++ [td],
         { acc.2 with redis := mapSet acc.2.redis t.tokenAddress td })

/-- One bulk chunk: process each address, then progressively rewrite the
cached aggregated list with everything accumulated so far (line 801). -/
def processChunk (csv : List (String × TokenMetadata))
    (fetchFn : String → FetchOutcome) (now : ℕ)
    (acc : List TokenData × AggState) (chunk : List TokenMetadata) :
    List TokenData × AggState :=
  let stepped := chunk.foldl (bulkStep csv fetchFn now) acc
  (stepped.1, { stepped.2 with aggregated := some stepped.1 })

/-- tokenAggregation.ts `aggregateAllTokens`: serve the cached full list if
present; otherwise collect per-address cache hits, fetch the misses in
chunks of two, cache fresh records progressively, and finally rewrite the
full-list entry. -/
def aggregateAllTokens (csv : List (String × TokenMetadata))
    (fetchFn : String → FetchOutcome) (st : AggState) (now : ℕ) :
    List TokenData × AggState :=
  match st.aggregated with
  | some cached => (cached, st)
  | none =>
    let allTokens := csvGetAllTokens csv
    let scanned := partitionCached st.redis allTokens
    let processed :=
      if scanned.2.isEmpty then (scanned.1, st)
      else (chunk2 scanned.2).foldl (processChunk csv fetchFn now)
        (scanned.1, st)
    (processed.1, { processed.2 with aggregated := some processed.1 })

/-- tokenAggregation.ts `refreshToken`: clear the address from both cache
tiers, then run the normal single-address aggregation. -/
def refreshToken (csv : List (String × TokenMetadata)) (fetch : FetchOutcome)
    (st : AggState) (now : ℕ) (tokenAddress : String) :
    Option TokenData × AggState :=
  let st1 : AggState :=
    { st with
      memoryCache := mapDelete st.memoryCache tokenAddress
      redis := mapDelete st.redis tokenAddress }
  aggregateToken csv fetch st1 now tokenAddress

/-- Derived view of the aggregateToken fetch path: the record it produces
on a full cache miss (metadata lookup, merge, and the non-empty-sources
check), without the cache effects. -/
def freshResult (csv : List (String × TokenMetadata)) (fetch : FetchOutcome)
    (now : ℕ) (tokenAddress : String) : Option TokenData :=
  match csvGetToken csv tokenAddress with
  | none => none
  | some metadata =>
    let md := mergeTokenData fetch.dexScreener fetch.geckoTerminal metadata now
    if md.sources.isEmpty then none else md.body.map md.toTokenData

/-- The no-empty-sources cache invariant: every record held in either
cache tier, and every record of the cached full list, names at least one
contributing source. -/
def noEmptySources (st : AggState) : Prop :=
  (∀ p ∈ st.memoryCache, p.2.data.sources ≠ []) ∧
  (∀ p ∈ st.redis, p.2.sources ≠ []) ∧
  (∀ l, st.aggregated = some l → ∀ r ∈ l, r.sources ≠ [])

/-- Per-provider rate-limit state (apiClients.ts RATE_LIMIT entries):
the quota, the window length in ms, the running request count and the
window-reset timestamp. -/
structure Limiter where
  maxRequests : ℕ
  perMinute : ℕ
  requestCount : ℕ
  resetTime : ℕ
  deriving DecidableEq, Repr

/-- The DexScreener limiter as freshly initialized at time t0:
250 requests per 60000 ms window. -/
def dexScreenerLimiter (t0 : ℕ) : Limiter := ⟨250, 60000, 0, t0 + 60000⟩

/-- The GeckoTerminal limiter as freshly initialized at time t0:
25 requests per 60000 ms window. -/
def geckoTerminalLimiter (t0 : ℕ) : Limiter := ⟨25, 60000, 0, t0 + 60000⟩

/-- apiClients.ts `checkRateLimit`, one call arriving at time `now`:
reset the counter if the window has passed; if the quota is used up, sleep
until the reset time (modelled as waking exactly then), restart the window
and proceed; otherwise increment and proceed.  Returns the new state,
whether the call blocked, and the time at which the request is actually
dispatched. -/
def checkRateLimit (l : Limiter) (now : ℕ) : Limiter × Bool × ℕ :=
  let l1 : Limiter :=
    if l.resetTime ≤ now then
      { l with requestCount := 0, resetTime := now + l.perMinute }
    else l
  if l1.maxRequests ≤ l1.requestCount then
    -- await sleep(resetTime - now); then count := 0, a fresh window from
    -- the wake-up time, and the count += 1 below
    (⟨l1.maxRequests, l1.perMinute, 1, l1.resetTime + l1.perMinute⟩,
     true, l1.resetTime)
  else
    ({ l1 with requestCount := l1.requestCount + 1 }, false, now)

/-- Sequential execution of a list of calls against one limiter: each call
starts at its arrival time or at the completion of the previous call,
whichever is later.  Produces, per call, the blocked flag and the dispatch
time, plus the final limiter state and clock. -/
def runCalls (l : Limiter) (clock : ℕ) : List ℕ →
    List (Bool × ℕ) × Limiter × ℕ
  | [] => ([], l, clock)
  | t :: ts =>
    let now := max clock t
    let stepped := checkRateLimit l now
    let rest := runCalls stepped.1 stepped.2.2 ts
    (stepped.2 :: rest.1, rest.2)

/-- Classification of one HTTP attempt outcome (axios errors): an HTTP
error response with its status and optional retry-after header (seconds),
or a network error with no response. -/
inductive ApiFailure where
  | http (status : ℕ) (retryAfter : Option ℕ)
  | network
  deriving DecidableEq, Repr

/-- apiClients.ts non-retryable test (lines 344-347): any 4xx status except
429. -/
def isNonRetryable : ApiFailure → Bool
  | .http status _ => 400 ≤ status && status < 500 && status != 429
  | .network => false

/-- Is the failure a 429 response? (special rate-limit handling). -/
def is429 : ApiFailure → Bool
  | .http status _ => status == 429
  | .network => false

/-- apiClients.ts RetryConfig. -/
structure RetryConfig where
  maxRetries : ℕ
  baseDelay : ℚ
  maxDelay : ℚ
  deriving DecidableEq, Repr

/-- apiClients.ts DEFAULT_RETRY_CONFIG: maxRetries 5, base delay 2000 ms,
max delay 30000 ms. -/
def DEFAULT_RETRY_CONFIG : RetryConfig := ⟨5, 2000, 30000⟩

/-- apiClients.ts `calculateBackoffDelay`: exponential backoff capped at
maxDelay, plus the jitter drawn for this retry
(`Math.random() * 1000`, passed in as `jitter`). -/
def calculateBackoffDelay (retryCount : ℕ) (config : RetryConfig)
    (jitter : ℚ) : ℚ :=
  min (config.baseDelay * 2 ^ retryCount) config.maxDelay + jitter

/-- The sleep the 429 handler performs (lines 331-336): the server-supplied
retry-after converted to ms when present, else the max backoff. -/
def rateLimitSleep (config : RetryConfig) : Option ℕ → ℚ
  | some retryAfter => (retryAfter : ℚ) * 1000
  | none => config.maxDelay

/-- The observable outcome of retryWithBackoff: the final result, how many
times the wrapped operation ran, and every sleep performed, in order. -/
structure RetryTrace (α : Type) where
  result : Except ApiFailure α
  attempts : ℕ
  sleeps : List ℚ
  deriving Repr

/-- Extract the retry-after header of a failure (present only on HTTP
responses). -/
def retryAfterOf : ApiFailure → Option ℕ
  | .http _ retryAfter => retryAfter
  | .network => none

/-- The retry loop of apiClients.ts `retryWithBackoff`.  `op a` is the
outcome of the operation on (0-based) attempt `a`, `jitter a` the random
jitter drawn after attempt `a`.  `fuel` is the number of loop iterations
left (the source iterates attempt = 0 .. maxRetries). -/
def retryLoop {α : Type} (op : ℕ → Except ApiFailure α)
    (config : RetryConfig) (jitter : ℕ → ℚ) :
    (attempt fuel : ℕ) → (lastError : Option ApiFailure) →
    (made : ℕ) → (sleeps : List ℚ) → RetryTrace α
  | _, 0, lastError, made, sleeps =>
    -- loop exhausted: throw lastError (never reached with lastError none
    -- when at least one iteration ran)
    ⟨.error (lastError.getD .network), made, sleeps⟩
  | attempt, fuel + 1, _, made, sleeps =>
    match op attempt with
    | .ok v => ⟨.ok v, made + 1, sleeps⟩
    | .error e =>
      let sleeps1 :=
        if is429 e then sleeps ++ [rateLimitSleep config (retryAfterOf e)]
        else sleeps
      if isNonRetryable e then ⟨.error e, made + 1, sleeps1⟩
      else if attempt < config.maxRetries then
        retryLoop op config jitter (attempt + 1) fuel (some e) (made + 1)
          (sleeps1 ++ [calculateBackoffDelay attempt config (jitter attempt)])
      else ⟨.error e, made + 1, sleeps1⟩

/-- apiClients.ts `retryWithBackoff` run from a clean start. -/
def retryWithBackoff {α : Type} (op : ℕ → Except ApiFailure α)
    (config : RetryConfig) (jitter : ℕ → ℚ) : RetryTrace α :=
  retryLoop op config jitter 0 (config.maxRetries + 1) none 0 []

/-- websocketService.ts PriceUpdateEvent. -/
structure PriceUpdateEvent where
  tokenId : String
  symbol : String
  priceUsd : ℚ
  priceChange : ℚ
  volume : ℚ
  timestamp : ℕ
  deriving DecidableEq, Repr

/-- websocketService.ts VolumeSpikeEvent. -/
structure VolumeSpikeEvent where
  tokenId : String
  symbol : String
  volume : ℚ
  previousVolume : ℚ
  percentageIncrease : ℚ
  timestamp : ℕ
  deriving DecidableEq, Repr

/-- websocketService.ts VOLUME_SPIKE_THRESHOLD (1.5, a 50% increase). -/
def VOLUME_SPIKE_THRESHOLD : ℚ := 3 / 2

/-- Processing of one record of a broadcast batch (websocketService.ts
broadcastPriceUpdates loop body, lines 121-172): the price-update events
and volume-spike events emitted for this record, and the updated
last-broadcast map. -/
def broadcastStep (prev : List (String × TokenData)) (token : TokenData)
    (now : ℕ) :
    List PriceUpdateEvent × List VolumeSpikeEvent × List (String × TokenData) :=
  let previous := mapGet prev token.tokenId
  let updates : List PriceUpdateEvent :=
    match previous with
    | some p =>
      if p.body.priceUsd ≠ token.body.priceUsd then
        [⟨token.tokenId, token.symbol, token.body.priceUsd,
          (token.body.priceUsd - p.body.priceUsd) / p.body.priceUsd * 100,
          token.body.volume.h24, now⟩]
      else []
    | none => []
  let spikes : List VolumeSpikeEvent :=
    match previous with
    | some p =>
      if 0 < token.body.volume.h24 then
        -- `previous.volume.h24 or 1`: the falsy value 0 becomes 1
        let denom :=
          if p.body.volume.h24 = 0 then 1 else p.body.volume.h24
        let volumeIncrease := token.body.volume.h24 / denom
        if VOLUME_SPIKE_THRESHOLD ≤ volumeIncrease then
          [⟨token.tokenId, token.symbol, token.body.volume.h24,
            p.body.volume.h24, (volumeIncrease - 1) * 100, now⟩]
        else []
      else []
    | none => []
  (updates, spikes, mapSet prev token.tokenId token)

/-- websocketService.ts `broadcastPriceUpdates` over a whole batch:
accumulate the per-record events in order while threading the
last-broadcast map. -/
def broadcastPriceUpdates (prev : List (String × TokenData))
    (tokens : List TokenData) (now : ℕ) :
    List PriceUpdateEvent × List VolumeSpikeEvent × List (String × TokenData) :=
  tokens.foldl
    (fun acc token =>
      let stepped := broadcastStep acc.2.2 token now
      (acc.1 ++ stepped.1, acc.2.1 ++ stepped.2.1, stepped.2.2))
    ([], [], prev)

/-- Sample metadata row used in concrete instantiations. -/
def sampleMeta : TokenMetadata := ⟨"Dogecoin", "DOGE", "dup1"⟩

/-- Metadata map holding just the sample row (under its lower-cased,
here already lower-case, address). -/
def sampleCsv : List (String × TokenMetadata) := [("dup1", sampleMeta)]

/-- Provider A payload of the documented merge scenario: 24h volume
3,500,000 and price 0.087654. -/
def samplePairA : DexScreenerPair :=
  ⟨"solana", some (87654 / 1000000), none, none,
   some ⟨none, none, some 3500000⟩, none, none, none, "pairA", "raydium"⟩

/-- Provider B payload of the documented merge scenario: price 0.087000,
liquidity 2,500,000, no price-change data, no pools. -/
def sampleGeckoB : GeckoTerminalToken :=
  ⟨⟨some (87 / 1000), none, none, none, some 2500000⟩, []⟩

/-- A generic record body used to build concrete cache contents. -/
def sampleBody : TokenBody :=
  ⟨1, 0, ⟨0, 0, 0⟩, ⟨0, 0, 0⟩, ⟨⟨0, 0⟩, ⟨0, 0⟩, ⟨0, 0⟩⟩, 0, none, 0,
   "pair", "dex"⟩

/-- A generic canonical record with a given id and 24h volume. -/
def sampleToken (id : String) (vol24 : ℚ) : TokenData :=
  ⟨id, "name", "SYM", "solana", { sampleBody with volume := ⟨0, 0, vol24⟩ },
   ["dexscreener"], 0⟩

/-- A 100-entry in-process cache with pairwise distinct keys. -/
def sampleMem100 : List (String × MemEntry) :=
  (List.range 100).map
    (fun i => ("key" ++ toString i, ⟨sampleToken ("key" ++ toString i) 0, 0⟩))

/-!
Theorems.  First generic lemmas about the association-list maps and the
lower-casing function, then one theorem (plus witness or counterexample
where required) per specification claim.
-/

theorem mapGet_eq_none_iff {α : Type} (m : List (String × α)) (k : String) :
    mapGet m k = none ↔ ∀ p ∈ m, p.1 ≠ k := by
  induction m with
  | nil => simp [mapGet]
  | cons hd tl ih =>
    obtain ⟨k', v⟩ := hd
    by_cases h : k' = k
    · subst h
      simp [mapGet]
    · simp [mapGet, h, ih]

theorem mapGet_mapSet_self {α : Type} (m : List (String × α)) (k : String)
    (v : α) : mapGet (mapSet m k v) k = some v := by
  induction m with
  | nil => simp [mapSet, mapGet]
  | cons hd tl ih =>
    obtain ⟨k', v'⟩ := hd
    by_cases h : k' = k
    · simp [mapSet, mapGet, h]
    · simp [mapSet, mapGet, h, ih]

theorem mapSet_eq_append {α : Type} {m : List (String × α)} {k : String}
    (v : α) (h : mapGet m k = none) : mapSet m k v = m ++ [(k, v)] := by
  induction m with
  | nil => simp [mapSet]
  | cons hd tl ih =>
    obtain ⟨k', v'⟩ := hd
    by_cases hk : k' = k
    · simp [mapGet, hk] at h
    · simp only [mapGet, if_neg hk] at h
      simp [mapSet, hk, ih h]

theorem mapDelete_eq_self {α : Type} {m : List (String × α)} {k : String}
    (h : mapGet m k = none) : mapDelete m k = m := by
  induction m with
  | nil => simp [mapDelete]
  | cons hd tl ih =>
    obtain ⟨k', v'⟩ := hd
    by_cases hk : k' = k
    · simp [mapGet, hk] at h
    · simp only [mapGet, if_neg hk] at h
      simp [mapDelete, hk, ih h]

theorem mapDelete_append {α : Type} (xs ys : List (String × α)) (k : String) :
    mapDelete (xs ++ ys) k = mapDelete xs k ++ mapDelete ys k := by
  induction xs with
  | nil => simp [mapDelete]
  | cons hd tl ih =>
    obtain ⟨k', v'⟩ := hd
    by_cases hk : k' = k
    · simp [mapDelete, hk, ih]
    · simp [mapDelete, hk, ih]

theorem mapGet_mapDelete_self {α : Type} (m : List (String × α))
    (k : String) : mapGet (mapDelete m k) k = none := by
  induction m with
  | nil => simp [mapDelete, mapGet]
  | cons hd tl ih =>
    obtain ⟨k', v'⟩ := hd
    by_cases hk : k' = k
    · simp [mapDelete, hk, ih]
    · simp [mapDelete, mapGet, hk, ih]

theorem mapSet_length_of_get_some {α : Type} {m : List (String × α)}
    {k : String} {v' : α} (v : α) (h : mapGet m k = some v') :
    (mapSet m k v).length = m.length := by
  induction m with
  | nil => simp [mapGet] at h
  | cons hd tl ih =>
    obtain ⟨k', v''⟩ := hd
    by_cases hk : k' = k
    · simp [mapSet, hk]
    · simp only [mapGet, if_neg hk] at h
      simp [mapSet, hk, ih h]

theorem mapDelete_length_le {α : Type} (m : List (String × α)) (k : String) :
    (mapDelete m k).length ≤ m.length := by
  induction m with
  | nil => simp [mapDelete]
  | cons hd tl ih =>
    obtain ⟨k', v'⟩ := hd
    by_cases hk : k' = k
    · simp only [mapDelete, if_pos hk]
      exact Nat.le_succ_of_le ih
    · simp only [mapDelete, if_neg hk, List.length_cons]
      omega

theorem mem_mapSet {α : Type} {m : List (String × α)} {k : String} {v : α}
    {p : String × α} (h : p ∈ mapSet m k v) : p = (k, v) ∨ p ∈ m := by
  induction m with
  | nil =>
    simp [mapSet] at h
    subst h
    exact Or.inl rfl
  | cons hd tl ih =>
    obtain ⟨k', v'⟩ := hd
    by_cases hk : k' = k
    · simp only [mapSet, if_pos hk] at h
      rcases List.mem_cons.mp h with h | h
      · subst h; exact Or.inl rfl
      · exact Or.inr (List.mem_cons_of_mem _ h)
    · simp only [mapSet, if_neg hk] at h
      rcases List.mem_cons.mp h with h | h
      · subst h; exact Or.inr (List.mem_cons_self _ _)
      · rcases ih h with h | h
        · exact Or.inl h
        · exact Or.inr (List.mem_cons_of_mem _ h)

theorem mem_mapDelete {α : Type} {m : List (String × α)} {k : String}
    {p : String × α} (h : p ∈ mapDelete m k) : p ∈ m := by
  induction m with
  | nil => simp [mapDelete] at h
  | cons hd tl ih =>
    obtain ⟨k', v'⟩ := hd
    by_cases hk : k' = k
    · simp only [mapDelete, if_pos hk] at h
      exact List.mem_cons_of_mem _ (ih h)
    · simp only [mapDelete, if_neg hk] at h
      rcases List.mem_cons.mp h with h | h
      · subst h; exact List.mem_cons_self _ _
      · exact List.mem_cons_of_mem _ (ih h)

theorem mapGet_mem {α : Type} {m : List (String × α)} {k : String} {v : α}
    (h : mapGet m k = some v) : (k, v) ∈ m := by
  induction m with
  | nil => simp [mapGet] at h
  | cons hd tl ih =>
    obtain ⟨k', v'⟩ := hd
    by_cases hk : k' = k
    · simp only [mapGet, if_pos hk, Option.some.injEq] at h
      subst hk
      subst h
      exact List.mem_cons_self _ _
    · simp only [mapGet, if_neg hk] at h
      exact List.mem_cons_of_mem _ (ih h)

theorem lowerChar_toNat_of_upper {c : Char} (h1 : 65 ≤ c.toNat)
    (h2 : c.toNat ≤ 90) : (lowerChar c).toNat = c.toNat + 32 := by
  have hv : (c.toNat + 32).isValidChar := by
    left
    omega
  rw [lowerChar, if_pos (And.intro h1 h2), Char.ofNat, dif_pos hv]
  rfl

theorem lowerChar_idem (c : Char) : lowerChar (lowerChar c) = lowerChar c := by
  by_cases h : 65 ≤ c.toNat ∧ c.toNat ≤ 90
  · have ht := lowerChar_toNat_of_upper h.1 h.2
    have hn : ¬(65 ≤ (lowerChar c).toNat ∧ (lowerChar c).toNat ≤ 90) := by
      rw [ht]; omega
    conv_lhs => rw [lowerChar]
    rw [if_neg hn]
  · have hc : lowerChar c = c := by rw [lowerChar, if_neg h]
    rw [hc]
    exact hc

theorem lowerStr_idem (s : String) : lowerStr (lowerStr s) = lowerStr s := by
  obtain ⟨l⟩ := s
  simp only [lowerStr, List.map_map]
  congr 1
  exact List.map_congr_left (fun c _ => lowerChar_idem c)

theorem loadTokens_keys_lowered (rows : List TokenMetadata)
    (m : List (String × TokenMetadata))
    (hm : ∀ p ∈ m, lowerStr p.1 = p.1) :
    ∀ p ∈ rows.foldl
      (fun m t =>
        if t.tokenAddress = "" then m
        else mapSet m (lowerStr t.tokenAddress) t) m,
      lowerStr p.1 = p.1 := by
  induction rows generalizing m with
  | nil => simpa using hm
  | cons r rs ih =>
    simp only [List.foldl_cons]
    apply ih
    intro p hp
    by_cases hr : r.tokenAddress = ""
    · rw [if_pos hr] at hp
      exact hm p hp
    · rw [if_neg hr] at hp
      rcases mem_mapSet hp with h | h
      · rw [h]
        exact lowerStr_idem _
      · exact hm p h

/-- Claim C10: metadata lookup is case-insensitive in the address —
getToken applied to any address string gives the same result as getToken
applied to its lower-cased form, because loadTokens stores every row under
a lower-cased key and getToken lower-cases before looking up. -/
theorem claim10_getToken_case_insensitive :
    (∀ (tokens : List (String × TokenMetadata)) (a : String),
      csvGetToken tokens a = csvGetToken tokens (lowerStr a)) ∧
    (∀ rows : List TokenMetadata,
      ((loadTokens rows).map fun p => lowerStr p.1) =
        (loadTokens rows).map Prod.fst) := by
  constructor
  · intro tokens a
    unfold csvGetToken
    rw [lowerStr_idem]
  · intro rows
    apply List.map_congr_left
    intro p hp
    exact loadTokens_keys_lowered rows [] (by simp) p hp

theorem dexVolH24_le_firstMaxPair (x : DexScreenerPair)
    (xs : List DexScreenerPair) :
    dexVolH24 x ≤ dexVolH24 (firstMaxPair x xs) := by
  cases xs with
  | nil => simp [firstMaxPair]
  | cons y ys =>
    simp only [firstMaxPair]
    by_cases h : dexVolH24 x < dexVolH24 (firstMaxPair y ys)
    · rw [if_pos h]
      exact le_of_lt h
    · rw [if_neg h]

theorem firstMaxPair_step (x y : DexScreenerPair)
    (ys : List DexScreenerPair) :
    firstMaxPair (if dexVolH24 x < dexVolH24 y then y else x) ys =
      if dexVolH24 x < dexVolH24 (firstMaxPair y ys) then firstMaxPair y ys
      else x := by
  cases ys with
  | nil =>
    simp [firstMaxPair]
  | cons z zs =>
    by_cases hxy : dexVolH24 x < dexVolH24 y
    · rw [if_pos hxy]
      have hy : dexVolH24 y ≤ dexVolH24 (firstMaxPair y (z :: zs)) :=
        dexVolH24_le_firstMaxPair y (z :: zs)
      rw [if_pos (lt_of_lt_of_le hxy hy)]
    · rw [if_neg hxy]
      show (if dexVolH24 x < dexVolH24 (firstMaxPair z zs)
            then firstMaxPair z zs else x) = _
      by_cases hyK : dexVolH24 y < dexVolH24 (firstMaxPair z zs)
      · rw [show firstMaxPair y (z :: zs) = firstMaxPair z zs from
            by simp [firstMaxPair, if_pos hyK]]
      · rw [show firstMaxPair y (z :: zs) = y from
            by simp [firstMaxPair, if_neg hyK]]
        have hxK : ¬dexVolH24 x < dexVolH24 (firstMaxPair z zs) :=
          not_lt.mpr (le_trans (not_lt.mp hyK) (not_lt.mp hxy))
        rw [if_neg hxK, if_neg hxy]

theorem bestPair_eq_firstMaxPair (x : DexScreenerPair)
    (xs : List DexScreenerPair) : bestPair x xs = firstMaxPair x xs := by
  induction xs generalizing x with
  | nil => rfl
  | cons y ys ih =>
    have hstep : bestPair x (y :: ys) =
        bestPair (if dexVolH24 x < dexVolH24 y then y else x) ys := by
      simp [bestPair]
    rw [hstep, ih, firstMaxPair_step]
    simp [firstMaxPair]

theorem firstMaxPair_decomp (x : DexScreenerPair)
    (xs : List DexScreenerPair) :
    ∃ pre post, x :: xs = pre ++ firstMaxPair x xs :: post ∧
      (∀ q ∈ x :: xs, dexVolH24 q ≤ dexVolH24 (firstMaxPair x xs)) ∧
      (∀ q ∈ pre, dexVolH24 q < dexVolH24 (firstMaxPair x xs)) := by
  induction xs generalizing x with
  | nil =>
    refine ⟨[], [], by simp [firstMaxPair], ?_, by simp⟩
    intro q hq
    rcases List.mem_cons.mp hq with rfl | hq
    · simp [firstMaxPair]
    · exact absurd hq (List.not_mem_nil q)
  | cons y ys ih =>
    obtain ⟨pre, post, heq, hmax, hpre⟩ := ih y
    by_cases h : dexVolH24 x < dexVolH24 (firstMaxPair y ys)
    · have hfm : firstMaxPair x (y :: ys) = firstMaxPair y ys := by
        simp [firstMaxPair, if_pos h]
      refine ⟨x :: pre, post, ?_, ?_, ?_⟩
      · rw [hfm, List.cons_append, ← heq]
      · intro q hq
        rw [hfm]
        rcases List.mem_cons.mp hq with rfl | hq
        · exact le_of_lt h
        · exact hmax q hq
      · intro q hq
        rw [hfm]
        rcases List.mem_cons.mp hq with rfl | hq
        · exact h
        · exact hpre q hq
    · have hfm : firstMaxPair x (y :: ys) = x := by
        simp [firstMaxPair, if_neg h]
      refine ⟨[], y :: ys, ?_, ?_, ?_⟩
      · rw [hfm]
        rfl
      · intro q hq
        rw [hfm]
        rcases List.mem_cons.mp hq with rfl | hq
        · exact le_refl _
        · exact le_trans (hmax q hq) (not_lt.mp h)
      · intro q hq
        exact absurd hq (List.not_mem_nil q)

/-- Claim C4: the merge selects, from a non-empty list of DexScreener
pairs, exactly the pair with the highest 24h volume, and on ties the
earliest pair of the input list: the input splits around the selected
pair such that every pair has 24h volume at most the selected one's and
every pair strictly before it has strictly smaller 24h volume. -/
theorem claim4_best_pair_selection (p : DexScreenerPair)
    (ps : List DexScreenerPair) :
    ∃ pre post, p :: ps = pre ++ bestPair p ps :: post ∧
      (∀ q ∈ p :: ps, dexVolH24 q ≤ dexVolH24 (bestPair p ps)) ∧
      (∀ q ∈ pre, dexVolH24 q < dexVolH24 (bestPair p ps)) := by
  rw [bestPair_eq_firstMaxPair]
  exact firstMaxPair_decomp p ps

/-- Claim C3: when both providers contribute, the merged price is the
arithmetic mean of the two providers' normalized prices and the liquidity
is GeckoTerminal's value, with sources listing both providers in
contribution order; concretely, provider A price 0.087654 (volume24h
3,500,000) and provider B price 0.087000 with liquidity 2,500,000 merge to
price 0.087327, liquidity 2,500,000, and
sources dexscreener then geckoterminal. -/
theorem claim3_dual_source_merge :
    (∀ (p : DexScreenerPair) (ps : List DexScreenerPair)
       (g : GeckoTerminalToken) (metadata : TokenMetadata) (now : ℕ),
      ∃ b, (mergeTokenData (p :: ps) (some g) metadata now).body = some b ∧
        b.priceUsd =
          ((normalizeDexScreenerData (bestPair p ps) metadata now).body.priceUsd
            + (normalizeGeckoTerminalData g metadata now).body.priceUsd) / 2 ∧
        b.liquidity =
          (normalizeGeckoTerminalData g metadata now).body.liquidity ∧
        (mergeTokenData (p :: ps) (some g) metadata now).sources =
          ["dexscreener", "geckoterminal"]) ∧
    ((mergeTokenData [samplePairA] (some sampleGeckoB) sampleMeta 0).body.map
        TokenBody.priceUsd = some (87327 / 1000000) ∧
      (mergeTokenData [samplePairA] (some sampleGeckoB) sampleMeta 0).body.map
        TokenBody.liquidity = some 2500000 ∧
      (mergeTokenData [samplePairA] (some sampleGeckoB) sampleMeta 0).sources =
        ["dexscreener", "geckoterminal"]) := by
  constructor
  · intro p ps g metadata now
    refine ⟨_, rfl, ?_, ?_, ?_⟩ <;>
      simp [mergeTokenData, TokenData.toMerged, normalizeDexScreenerData]
  · refine ⟨?_, ?_, ?_⟩ <;>
      norm_num [mergeTokenData, TokenData.toMerged, normalizeDexScreenerData,
        normalizeGeckoTerminalData, bestPair, samplePairA, sampleGeckoB,
        sampleMeta, dexVolH24]

theorem mergeTokenData_time_shift (dex : List DexScreenerPair)
    (g : Option GeckoTerminalToken) (metadata : TokenMetadata) (n m : ℕ) :
    mergeTokenData dex g metadata n =
      { mergeTokenData dex g metadata m with lastUpdated := n } := by
  cases dex <;> cases g <;> rfl

theorem mergeTokenData_lastUpdated (dex : List DexScreenerPair)
    (g : Option GeckoTerminalToken) (metadata : TokenMetadata) (now : ℕ) :
    (mergeTokenData dex g metadata now).lastUpdated = now := by
  cases dex <;> cases g <;> rfl

theorem aggregateToken_fresh_fst (csv : List (String × TokenMetadata))
    (fetch : FetchOutcome) (st : AggState) (now : ℕ) (addr : String)
    (hmem : mapGet st.memoryCache addr = none)
    (hredis : mapGet st.redis addr = none) :
    (aggregateToken csv fetch st now addr).1 =
      freshResult csv fetch now addr := by
  unfold aggregateToken aggregateTokenAfterMemory freshResult
  simp only [getFromMemoryCache, hmem, hredis]
  cases hcsv : csvGetToken csv addr with
  | none => simp [hcsv]
  | some metadata =>
    simp only [hcsv]
    cases hempty : (mergeTokenData fetch.dexScreener fetch.geckoTerminal
        metadata now).sources.isEmpty with
    | true => simp [hempty]
    | false =>
      cases hbody : (mergeTokenData fetch.dexScreener fetch.geckoTerminal
          metadata now).body with
      | none => simp [hbody, hempty]
      | some b => simp [hbody, hempty]

theorem freshResult_none (csv : List (String × TokenMetadata))
    (fetch : FetchOutcome) (now : ℕ) (addr : String)
    (hcsv : csvGetToken csv addr = none) :
    freshResult csv fetch now addr = none := by
  unfold freshResult
  rw [hcsv]

theorem freshResult_some (csv : List (String × TokenMetadata))
    (fetch : FetchOutcome) (now : ℕ) (addr : String)
    (metadata : TokenMetadata) (hcsv : csvGetToken csv addr = some metadata) :
    freshResult csv fetch now addr =
      if (mergeTokenData fetch.dexScreener fetch.geckoTerminal metadata
          now).sources.isEmpty then none
      else
        Option.map
          (MergedToken.toTokenData
            (mergeTokenData fetch.dexScreener fetch.geckoTerminal metadata
              now))
          (mergeTokenData fetch.dexScreener fetch.geckoTerminal metadata
            now).body := by
  unfold freshResult
  rw [hcsv]

theorem refreshToken_fst (csv : List (String × TokenMetadata))
    (fetch : FetchOutcome) (st : AggState) (now : ℕ) (addr : String) :
    (refreshToken csv fetch st now addr).1 =
      freshResult csv fetch now addr := by
  unfold refreshToken
  exact aggregateToken_fresh_fst _ _ _ _ _ (mapGet_mapDelete_self _ _)
    (mapGet_mapDelete_self _ _)

/-- Claim C9 (amended): two refresh calls for the same address with
identical upstream responses and metadata produce records that agree on
every field except lastUpdated, which carries each call's own clock
reading (so the records are bit-for-bit equal exactly when the two clock
readings coincide, and not in general). -/
theorem claim9_refresh_deterministic (csv : List (String × TokenMetadata))
    (fetch : FetchOutcome) (st st2 : AggState) (now1 now2 : ℕ)
    (addr : String) (t1 t2 : TokenData)
    (h1 : (refreshToken csv fetch st now1 addr).1 = some t1)
    (h2 : (refreshToken csv fetch st2 now2 addr).1 = some t2) :
    t1 = { t2 with lastUpdated := t1.lastUpdated } ∧
      t1.lastUpdated = now1 ∧ t2.lastUpdated = now2 := by
  rw [refreshToken_fst] at h1 h2
  cases hcsv : csvGetToken csv addr with
  | none =>
    rw [freshResult_none csv fetch now1 addr hcsv] at h1
    exact absurd h1 (by simp)
  | some metadata =>
    rw [freshResult_some csv fetch now1 addr metadata hcsv] at h1
    rw [freshResult_some csv fetch now2 addr metadata hcsv] at h2
    have hshift := mergeTokenData_time_shift fetch.dexScreener
      fetch.geckoTerminal metadata now1 now2
    have hsrc : (mergeTokenData fetch.dexScreener fetch.geckoTerminal
        metadata now1).sources =
        (mergeTokenData fetch.dexScreener fetch.geckoTerminal metadata
          now2).sources := by rw [hshift]
    have hbody : (mergeTokenData fetch.dexScreener fetch.geckoTerminal
        metadata now1).body =
        (mergeTokenData fetch.dexScreener fetch.geckoTerminal metadata
          now2).body := by rw [hshift]
    by_cases hempty : (mergeTokenData fetch.dexScreener fetch.geckoTerminal
        metadata now1).sources.isEmpty
    · rw [if_pos hempty] at h1
      exact absurd h1 (by simp)
    · rw [if_neg hempty] at h1
      rw [if_neg (by rw [← hsrc]; exact hempty)] at h2
      cases hb : (mergeTokenData fetch.dexScreener fetch.geckoTerminal
          metadata now1).body with
      | none => rw [hb] at h1; exact absurd h1 (by simp)
      | some b =>
        rw [hb] at h1
        rw [← hbody, hb] at h2
        simp only [Option.map_some'] at h1 h2
        injection h1 with e1
        injection h2 with e2
        subst e1
        subst e2
        refine ⟨?_, ?_, ?_⟩
        · simp only [MergedToken.toTokenData, hshift]
        · simp [MergedToken.toTokenData, mergeTokenData_lastUpdated]
        · simp [MergedToken.toTokenData, mergeTokenData_lastUpdated]

/-- Claim C9 counterexample: with identical upstream responses, the second
of two consecutive refresh calls (one clock tick later) returns a record
different from the first — the lastUpdated field differs — so the records
are not bit-for-bit equal as the claim states. -/
theorem claim9_counterexample :
    (refreshToken sampleCsv ⟨[samplePairA], none⟩ ⟨[], [], none⟩ 0
        "dup1").1 ≠
      (refreshToken sampleCsv ⟨[samplePairA], none⟩
        (refreshToken sampleCsv ⟨[samplePairA], none⟩ ⟨[], [], none⟩ 0
          "dup1").2 1 "dup1").1 := by
  intro h
  have hc : (some 0 : Option ℕ) = some 1 := by
    calc (some 0 : Option ℕ)
        = (refreshToken sampleCsv ⟨[samplePairA], none⟩ ⟨[], [], none⟩ 0
            "dup1").1.map TokenData.lastUpdated := rfl
      _ = (refreshToken sampleCsv ⟨[samplePairA], none⟩
            (refreshToken sampleCsv ⟨[samplePairA], none⟩ ⟨[], [], none⟩ 0
              "dup1").2 1 "dup1").1.map TokenData.lastUpdated := by rw [h]
      _ = some 1 := rfl
  exact absurd hc (by simp)

/-- Witness for the amended claim C9 theorem at concrete inputs. -/
theorem claim9_witness :
    (refreshToken sampleCsv ⟨[samplePairA], none⟩ ⟨[], [], none⟩ 5
        "dup1").1 = some (normalizeDexScreenerData samplePairA sampleMeta 5) ∧
    (refreshToken sampleCsv ⟨[samplePairA], none⟩ ⟨[], [], none⟩ 7
        "dup1").1 = some (normalizeDexScreenerData samplePairA sampleMeta 7) ∧
    normalizeDexScreenerData samplePairA sampleMeta 5 =
      { normalizeDexScreenerData samplePairA sampleMeta 7 with
        lastUpdated :=
          (normalizeDexScreenerData samplePairA sampleMeta 5).lastUpdated } :=
  ⟨rfl, rfl,
   (claim9_refresh_deterministic sampleCsv ⟨[samplePairA], none⟩
      ⟨[], [], none⟩ ⟨[], [], none⟩ 5 7 "dup1" _ _ rfl rfl).1⟩

theorem ne_nil_of_isEmpty_false {α : Type} {l : List α}
    (h : l.isEmpty = false) : l ≠ [] := by
  cases l <;> simp_all

theorem mem_setMemoryCache {mem : List (String × MemEntry)} {a : String}
    {d : TokenData} {t : ℕ} {p : String × MemEntry}
    (h : p ∈ setMemoryCache mem a d t) : p = (a, ⟨d, t⟩) ∨ p ∈ mem := by
  unfold setMemoryCache at h
  by_cases hlen : 100 < (mapSet mem a ⟨d, t⟩).length
  · rw [if_pos hlen] at h
    cases hm : mapSet mem a ⟨d, t⟩ with
    | nil =>
      rw [hm] at h
      simp at h
    | cons hd tl =>
      rw [hm] at h
      obtain ⟨k0, v0⟩ := hd
      dsimp only at h
      by_cases hk : k0 = ""
      · rw [if_pos hk] at h
        have h2 : p ∈ mapSet mem a ⟨d, t⟩ := by rw [hm]; exact h
        exact mem_mapSet h2
      · rw [if_neg hk] at h
        have h2 : p ∈ mapSet mem a ⟨d, t⟩ := by
          rw [hm]
          exact mem_mapDelete h
        exact mem_mapSet h2
  · rw [if_neg hlen] at h
    exact mem_mapSet h

theorem aggregateToken_no_data (csv : List (String × TokenMetadata))
    (st : AggState) (now : ℕ) (addr : String)
    (hmem : mapGet st.memoryCache addr = none)
    (hredis : mapGet st.redis addr = none) :
    aggregateToken csv ⟨[], none⟩ st now addr = (none, st) := by
  unfold aggregateToken aggregateTokenAfterMemory
  simp only [getFromMemoryCache, hmem, hredis]
  cases hcsv : csvGetToken csv addr with
  | none => rfl
  | some metadata => rfl

theorem aggregateTokenAfterMemory_invariant
    (csv : List (String × TokenMetadata)) (fetch : FetchOutcome)
    (st1 : AggState) (now : ℕ) (addr : String)
    (hinv : noEmptySources st1) :
    (∀ td, (aggregateTokenAfterMemory csv fetch st1 now addr).1 = some td →
      td.sources ≠ []) ∧
    noEmptySources (aggregateTokenAfterMemory csv fetch st1 now addr).2 := by
  obtain ⟨hmemInv, hredisInv, haggInv⟩ := hinv
  unfold aggregateTokenAfterMemory
  cases hr : mapGet st1.redis addr with
  | some cached =>
    simp only
    have hcached : cached.sources ≠ [] := hredisInv _ (mapGet_mem hr)
    refine ⟨?_, ?_, hredisInv, haggInv⟩
    · intro td htd
      injection htd with e
      rw [← e]
      exact hcached
    · intro p hp
      rcases mem_setMemoryCache hp with h | h
      · rw [h]
        exact hcached
      · exact hmemInv p h
  | none =>
    simp only
    cases hcsv : csvGetToken csv addr with
    | none => exact ⟨by simp, hmemInv, hredisInv, haggInv⟩
    | some metadata =>
      simp only
      cases hempty : (mergeTokenData fetch.dexScreener fetch.geckoTerminal
          metadata now).sources.isEmpty with
      | true => simp only [if_pos]; exact ⟨by simp, hmemInv, hredisInv, haggInv⟩
      | false =>
        simp only [Bool.false_eq_true, if_false]
        cases hb : (mergeTokenData fetch.dexScreener fetch.geckoTerminal
            metadata now).body with
        | none => exact ⟨by simp, hmemInv, hredisInv, haggInv⟩
        | some b =>
          simp only
          have hsrc : (MergedToken.toTokenData
              (mergeTokenData fetch.dexScreener fetch.geckoTerminal metadata
                now) b).sources ≠ [] := ne_nil_of_isEmpty_false hempty
          refine ⟨?_, ?_, ?_, haggInv⟩
          · intro td htd
            injection htd with e
            rw [← e]
            exact hsrc
          · intro p hp
            rcases mem_setMemoryCache hp with h | h
            · rw [h]
              exact hsrc
            · exact hmemInv p h
          · intro p hp
            rcases mem_mapSet hp with h | h
            · rw [h]
              exact hsrc
            · exact hredisInv p h

theorem aggregateToken_invariant (csv : List (String × TokenMetadata))
    (fetch : FetchOutcome) (st : AggState) (now : ℕ) (addr : String)
    (hinv : noEmptySources st) :
    (∀ td, (aggregateToken csv fetch st now addr).1 = some td →
      td.sources ≠ []) ∧
    noEmptySources (aggregateToken csv fetch st now addr).2 := by
  obtain ⟨hmemInv, hredisInv, haggInv⟩ := hinv
  unfold aggregateToken
  cases hmg : mapGet st.memoryCache addr with
  | some entry =>
    cases hfresh : decide (now - entry.timestamp < MEMORY_CACHE_TTL) with
    | true =>
      have hf := of_decide_eq_true hfresh
      simp only [getFromMemoryCache, hmg, if_pos hf]
      have hentry : entry.data.sources ≠ [] := hmemInv _ (mapGet_mem hmg)
      refine ⟨?_, hmemInv, hredisInv, haggInv⟩
      intro td htd
      injection htd with e
      rw [← e]
      exact hentry
    | false =>
      have hf := of_decide_eq_false hfresh
      simp only [getFromMemoryCache, hmg, if_neg hf]
      exact aggregateTokenAfterMemory_invariant csv fetch _ now addr
        ⟨fun p hp => hmemInv p (mem_mapDelete hp), hredisInv, haggInv⟩
  | none =>
    simp only [getFromMemoryCache, hmg]
    exact aggregateTokenAfterMemory_invariant csv fetch _ now addr
      ⟨hmemInv, hredisInv, haggInv⟩

theorem bulkStep_invariant (csv : List (String × TokenMetadata))
    (fetchFn : String → FetchOutcome) (now : ℕ)
    (acc : List TokenData × AggState) (t : TokenMetadata)
    (h : (∀ r ∈ acc.1, r.sources ≠ []) ∧ noEmptySources acc.2) :
    (∀ r ∈ (bulkStep csv fetchFn now acc t).1, r.sources ≠ []) ∧
    noEmptySources (bulkStep csv fetchFn now acc t).2 := by
  obtain ⟨hres, hmemInv, hredisInv, haggInv⟩ := h
  unfold bulkStep
  cases hcsv : csvGetToken csv t.tokenAddress with
  | none => exact ⟨hres, hmemInv, hredisInv, haggInv⟩
  | some metadata =>
    simp only
    cases hempty : (mergeTokenData (fetchFn t.tokenAddress).dexScreener
        (fetchFn t.tokenAddress).geckoTerminal metadata now).sources.isEmpty
        with
    | true => simp only [if_pos]; exact ⟨hres, hmemInv, hredisInv, haggInv⟩
    | false =>
      simp only [Bool.false_eq_true, if_false]
      cases hb : (mergeTokenData (fetchFn t.tokenAddress).dexScreener
          (fetchFn t.tokenAddress).geckoTerminal metadata now).body with
      | none => exact ⟨hres, hmemInv, hredisInv, haggInv⟩
      | some b =>
        simp only
        have hsrc : (MergedToken.toTokenData
            (mergeTokenData (fetchFn t.tokenAddress).dexScreener
              (fetchFn t.tokenAddress).geckoTerminal metadata now)
            b).sources ≠ [] := ne_nil_of_isEmpty_false hempty
        refine ⟨?_, hmemInv, ?_, haggInv⟩
        · intro r hr
          rcases List.mem_append.mp hr with hr | hr
          · exact hres r hr
          · rw [List.mem_singleton.mp hr]
            exact hsrc
        · intro p hp
          rcases mem_mapSet hp with hp | hp
          · rw [hp]
            exact hsrc
          · exact hredisInv p hp

theorem foldl_bulkStep_invariant (csv : List (String × TokenMetadata))
    (fetchFn : String → FetchOutcome) (now : ℕ)
    (chunk : List TokenMetadata) (acc : List TokenData × AggState)
    (h : (∀ r ∈ acc.1, r.sources ≠ []) ∧ noEmptySources acc.2) :
    (∀ r ∈ (chunk.foldl (bulkStep csv fetchFn now) acc).1,
      r.sources ≠ []) ∧
    noEmptySources (chunk.foldl (bulkStep csv fetchFn now) acc).2 := by
  induction chunk generalizing acc with
  | nil => exact h
  | cons t ts ih =>
    exact ih _ (bulkStep_invariant csv fetchFn now acc t h)

theorem processChunk_invariant (csv : List (String × TokenMetadata))
    (fetchFn : String → FetchOutcome) (now : ℕ)
    (acc : List TokenData × AggState) (chunk : List TokenMetadata)
    (h : (∀ r ∈ acc.1, r.sources ≠ []) ∧ noEmptySources acc.2) :
    (∀ r ∈ (processChunk csv fetchFn now acc chunk).1, r.sources ≠ []) ∧
    noEmptySources (processChunk csv fetchFn now acc chunk).2 := by
  unfold processChunk
  have h2 := foldl_bulkStep_invariant csv fetchFn now chunk acc h
  refine ⟨h2.1, h2.2.1, h2.2.2.1, ?_⟩
  intro l hl
  injection hl with e
  rw [← e]
  exact h2.1

theorem foldl_processChunk_invariant (csv : List (String × TokenMetadata))
    (fetchFn : String → FetchOutcome) (now : ℕ)
    (chunks : List (List TokenMetadata)) (acc : List TokenData × AggState)
    (h : (∀ r ∈ acc.1, r.sources ≠ []) ∧ noEmptySources acc.2) :
    (∀ r ∈ (chunks.foldl (processChunk csv fetchFn now) acc).1,
      r.sources ≠ []) ∧
    noEmptySources (chunks.foldl (processChunk csv fetchFn now) acc).2 := by
  induction chunks generalizing acc with
  | nil => exact h
  | cons c cs ih =>
    exact ih _ (processChunk_invariant csv fetchFn now acc c h)

theorem partitionCached_fst_sources (redis : List (String × TokenData))
    (rows : List TokenMetadata)
    (hredisInv : ∀ p ∈ redis, p.2.sources ≠ []) :
    ∀ r ∈ (partitionCached redis rows).1, r.sources ≠ [] := by
  induction rows with
  | nil => simp [partitionCached]
  | cons t ts ih =>
    cases hr : mapGet redis t.tokenAddress with
    | some c =>
      simp only [partitionCached, hr]
      intro r hrr
      rcases List.mem_cons.mp hrr with rfl | hrr
      · exact hredisInv _ (mapGet_mem hr)
      · exact ih r hrr
    | none =>
      simp only [partitionCached, hr]
      exact ih

theorem aggregateAllTokens_invariant (csv : List (String × TokenMetadata))
    (fetchFn : String → FetchOutcome) (st : AggState) (now : ℕ)
    (hinv : noEmptySources st) :
    (∀ r ∈ (aggregateAllTokens csv fetchFn st now).1, r.sources ≠ []) ∧
    noEmptySources (aggregateAllTokens csv fetchFn st now).2 := by
  obtain ⟨hmemInv, hredisInv, haggInv⟩ := hinv
  unfold aggregateAllTokens
  cases hagg : st.aggregated with
  | some cached =>
    simp only
    exact ⟨haggInv cached hagg, hmemInv, hredisInv, haggInv⟩
  | none =>
    simp only
    have hhits := partitionCached_fst_sources st.redis (csvGetAllTokens csv)
      hredisInv
    have hprocessed :
        (∀ r ∈ (if (partitionCached st.redis (csvGetAllTokens csv)).2.isEmpty
            then ((partitionCached st.redis (csvGetAllTokens csv)).1, st)
            else (chunk2 (partitionCached st.redis
                (csvGetAllTokens csv)).2).foldl
              (processChunk csv fetchFn now)
              ((partitionCached st.redis (csvGetAllTokens csv)).1, st)).1,
          r.sources ≠ []) ∧
        noEmptySources
          (if (partitionCached st.redis (csvGetAllTokens csv)).2.isEmpty
            then ((partitionCached st.redis (csvGetAllTokens csv)).1, st)
            else (chunk2 (partitionCached st.redis
                (csvGetAllTokens csv)).2).foldl
              (processChunk csv fetchFn now)
              ((partitionCached st.redis (csvGetAllTokens csv)).1, st)).2 := by
      by_cases hu : (partitionCached st.redis (csvGetAllTokens csv)).2.isEmpty
      · rw [if_pos hu]
        exact ⟨hhits, hmemInv, hredisInv, haggInv⟩
      · rw [if_neg hu]
        exact foldl_processChunk_invariant csv fetchFn now _ _
          ⟨hhits, hmemInv, hredisInv, haggInv⟩
    refine ⟨hprocessed.1, hprocessed.2.1, hprocessed.2.2.1, ?_⟩
    intro l hl
    injection hl with e
    rw [← e]
    exact hprocessed.1

/-- Claim C1: on a full cache miss, when zero providers return data the
single-address aggregation returns none and leaves the cache state
entirely unchanged; moreover, a record with an empty sources list is never
returned or cached — the no-empty-sources invariant is preserved by both
the single-address and the bulk aggregation paths. -/
theorem claim1_no_data_not_cached :
    (∀ (csv : List (String × TokenMetadata)) (st : AggState) (now : ℕ)
       (addr : String),
      mapGet st.memoryCache addr = none → mapGet st.redis addr = none →
      aggregateToken csv ⟨[], none⟩ st now addr = (none, st)) ∧
    (∀ (csv : List (String × TokenMetadata)) (fetch : FetchOutcome)
       (st : AggState) (now : ℕ) (addr : String), noEmptySources st →
      (∀ td, (aggregateToken csv fetch st now addr).1 = some td →
        td.sources ≠ []) ∧
      noEmptySources (aggregateToken csv fetch st now addr).2) ∧
    (∀ (csv : List (String × TokenMetadata))
       (fetchFn : String → FetchOutcome) (st : AggState) (now : ℕ),
      noEmptySources st →
      (∀ r ∈ (aggregateAllTokens csv fetchFn st now).1, r.sources ≠ []) ∧
      noEmptySources (aggregateAllTokens csv fetchFn st now).2) :=
  ⟨aggregateToken_no_data,
   aggregateToken_invariant,
   aggregateAllTokens_invariant⟩

/-- Witness for claim C1 at concrete inputs: an unknown-to-the-caches
address with both providers empty yields none and an unchanged (empty)
state, and the invariant clauses hold at a concrete run. -/
theorem claim1_witness :
    aggregateToken sampleCsv ⟨[], none⟩ ⟨[], [], none⟩ 0 "dup1" =
      (none, (⟨[], [], none⟩ : AggState)) ∧
    noEmptySources
      (aggregateToken sampleCsv ⟨[samplePairA], none⟩ ⟨[], [], none⟩ 0
        "dup1").2 ∧
    noEmptySources
      (aggregateAllTokens sampleCsv (fun _ => ⟨[samplePairA], none⟩)
        ⟨[], [], none⟩ 0).2 :=
  ⟨claim1_no_data_not_cached.1 sampleCsv ⟨[], [], none⟩ 0 "dup1" rfl rfl,
   (claim1_no_data_not_cached.2.1 sampleCsv ⟨[samplePairA], none⟩
      ⟨[], [], none⟩ 0 "dup1" ⟨by simp, by simp, by simp⟩).2,
   (claim1_no_data_not_cached.2.2 sampleCsv (fun _ => ⟨[samplePairA], none⟩)
      ⟨[], [], none⟩ 0 ⟨by simp, by simp, by simp⟩).2⟩

theorem mapGet_mapDelete_ne {α : Type} (m : List (String × α))
    {k' k : String} (h : k' ≠ k) :
    mapGet (mapDelete m k') k = mapGet m k := by
  induction m with
  | nil => simp [mapDelete]
  | cons hd tl ih =>
    obtain ⟨k0, v0⟩ := hd
    by_cases hk : k0 = k'
    · have hk0 : ¬k0 = k := by rw [hk]; exact h
      simp [mapDelete, mapGet, hk, hk0, ih, h]
    · simp only [mapDelete, if_neg hk]
      by_cases hk0 : k0 = k
      · simp [mapGet, hk0]
      · simp [mapGet, hk0, ih]

theorem mapGet_append_of_none {α : Type} {xs : List (String × α)}
    (ys : List (String × α)) {k : String} (h : mapGet xs k = none) :
    mapGet (xs ++ ys) k = mapGet ys k := by
  induction xs with
  | nil => simp
  | cons hd tl ih =>
    obtain ⟨k0, v0⟩ := hd
    by_cases hk : k0 = k
    · simp [mapGet, hk] at h
    · simp only [mapGet, if_neg hk] at h
      simp [mapGet, hk, ih h]

theorem mapGet_setMemoryCache_fresh {mem : List (String × MemEntry)}
    {a : String} (d : TokenData) (t : ℕ) (hfresh : mapGet mem a = none) :
    mapGet (setMemoryCache mem a d t) a = some ⟨d, t⟩ := by
  unfold setMemoryCache
  rw [mapSet_eq_append _ hfresh]
  by_cases hlen : 100 < (mem ++ [(a, (⟨d, t⟩ : MemEntry))]).length
  · rw [if_pos hlen]
    cases mem with
    | nil => simp at hlen
    | cons m0 ms =>
      obtain ⟨k0, v0⟩ := m0
      have hk0a : k0 ≠ a := by
        intro he
        subst he
        simp [mapGet] at hfresh
      rw [List.cons_append]
      dsimp only
      have htail : mapGet (((k0, v0) :: ms) ++ [(a, (⟨d, t⟩ : MemEntry))]) a =
          some ⟨d, t⟩ := by
        rw [mapGet_append_of_none _ hfresh]
        simp [mapGet]
      by_cases hk : k0 = ""
      · rw [if_pos hk]
        rw [← List.cons_append]
        exact htail
      · rw [if_neg hk]
        rw [← List.cons_append, mapGet_mapDelete_ne _ hk0a]
        exact htail
  · rw [if_neg hlen]
    rw [mapGet_append_of_none _ hfresh]
    simp [mapGet]

theorem aggregateToken_fresh_success (csv : List (String × TokenMetadata))
    (fetch : FetchOutcome) (st : AggState) (now : ℕ) (addr : String)
    (metadata : TokenMetadata) (b : TokenBody)
    (hmem : mapGet st.memoryCache addr = none)
    (hredis : mapGet st.redis addr = none)
    (hcsv : csvGetToken csv addr = some metadata)
    (hempty : (mergeTokenData fetch.dexScreener fetch.geckoTerminal metadata
      now).sources.isEmpty = false)
    (hb : (mergeTokenData fetch.dexScreener fetch.geckoTerminal metadata
      now).body = some b) :
    aggregateToken csv fetch st now addr =
      (some ((mergeTokenData fetch.dexScreener fetch.geckoTerminal metadata
          now).toTokenData b),
       ⟨setMemoryCache st.memoryCache addr
          ((mergeTokenData fetch.dexScreener fetch.geckoTerminal metadata
            now).toTokenData b) now,
        mapSet st.redis addr
          ((mergeTokenData fetch.dexScreener fetch.geckoTerminal metadata
            now).toTokenData b),
        st.aggregated⟩) := by
  unfold aggregateToken aggregateTokenAfterMemory
  simp only [getFromMemoryCache, hmem, hredis, hcsv, hempty, hb,
    Bool.false_eq_true, if_false]

theorem bulkStep_memoryCache (csv : List (String × TokenMetadata))
    (fetchFn : String → FetchOutcome) (now : ℕ)
    (acc : List TokenData × AggState) (t : TokenMetadata) :
    (bulkStep csv fetchFn now acc t).2.memoryCache = acc.2.memoryCache := by
  unfold bulkStep
  cases hcsv : csvGetToken csv t.tokenAddress with
  | none => rfl
  | some metadata =>
    dsimp only
    cases hempty : (mergeTokenData (fetchFn t.tokenAddress).dexScreener
        (fetchFn t.tokenAddress).geckoTerminal metadata now).sources.isEmpty
        with
    | true => simp [hempty]
    | false =>
      cases hb : (mergeTokenData (fetchFn t.tokenAddress).dexScreener
          (fetchFn t.tokenAddress).geckoTerminal metadata now).body with
      | none => simp [hempty, hb]
      | some b => simp [hempty, hb]

theorem foldl_bulkStep_memoryCache (csv : List (String × TokenMetadata))
    (fetchFn : String → FetchOutcome) (now : ℕ)
    (chunk : List TokenMetadata) (acc : List TokenData × AggState) :
    ((chunk.foldl (bulkStep csv fetchFn now) acc).2).memoryCache =
      acc.2.memoryCache := by
  induction chunk generalizing acc with
  | nil => rfl
  | cons t ts ih =>
    rw [List.foldl_cons, ih]
    exact bulkStep_memoryCache csv fetchFn now acc t

theorem foldl_processChunk_memoryCache (csv : List (String × TokenMetadata))
    (fetchFn : String → FetchOutcome) (now : ℕ)
    (chunks : List (List TokenMetadata)) (acc : List TokenData × AggState) :
    ((chunks.foldl (processChunk csv fetchFn now) acc).2).memoryCache =
      acc.2.memoryCache := by
  induction chunks generalizing acc with
  | nil => rfl
  | cons c cs ih =>
    rw [List.foldl_cons, ih]
    show (processChunk csv fetchFn now acc c).2.memoryCache = _
    unfold processChunk
    exact foldl_bulkStep_memoryCache csv fetchFn now c acc

theorem aggregateAllTokens_memoryCache (csv : List (String × TokenMetadata))
    (fetchFn : String → FetchOutcome) (st : AggState) (now : ℕ) :
    (aggregateAllTokens csv fetchFn st now).2.memoryCache =
      st.memoryCache := by
  unfold aggregateAllTokens
  cases hagg : st.aggregated with
  | some cached => rfl
  | none =>
    dsimp only
    by_cases hu : (partitionCached st.redis (csvGetAllTokens csv)).2.isEmpty
    · rw [if_pos hu]
    · rw [if_neg hu]
      exact foldl_processChunk_memoryCache csv fetchFn now _ _

/-- Claim C6 (amended): in the single-address path a freshly aggregated
record is written to both tiers in the same step — after a successful
fresh aggregation the returned record is retrievable from both the
in-process map and the durable tier of the new state; the bulk path,
however, writes only the durable tier (per-address entries and the full
list): it never touches the in-process cache. -/
theorem claim6_cache_tiers :
    (∀ (csv : List (String × TokenMetadata)) (fetch : FetchOutcome)
       (st : AggState) (now : ℕ) (addr : String)
       (metadata : TokenMetadata) (b : TokenBody),
      mapGet st.memoryCache addr = none → mapGet st.redis addr = none →
      csvGetToken csv addr = some metadata →
      (mergeTokenData fetch.dexScreener fetch.geckoTerminal metadata
        now).sources.isEmpty = false →
      (mergeTokenData fetch.dexScreener fetch.geckoTerminal metadata
        now).body = some b →
      ∃ td, aggregateToken csv fetch st now addr =
          (some td,
           ⟨setMemoryCache st.memoryCache addr td now,
            mapSet st.redis addr td, st.aggregated⟩) ∧
        mapGet (setMemoryCache st.memoryCache addr td now) addr =
          some ⟨td, now⟩ ∧
        mapGet (mapSet st.redis addr td) addr = some td) ∧
    (∀ (csv : List (String × TokenMetadata))
       (fetchFn : String → FetchOutcome) (st : AggState) (now : ℕ),
      (aggregateAllTokens csv fetchFn st now).2.memoryCache =
        st.memoryCache) := by
  constructor
  · intro csv fetch st now addr metadata b hmem hredis hcsv hempty hb
    refine ⟨(mergeTokenData fetch.dexScreener fetch.geckoTerminal metadata
      now).toTokenData b, ?_, ?_, ?_⟩
    · exact aggregateToken_fresh_success csv fetch st now addr metadata b
        hmem hredis hcsv hempty hb
    · exact mapGet_setMemoryCache_fresh _ now hmem
    · exact mapGet_mapSet_self _ _ _
  · exact aggregateAllTokens_memoryCache

/-- Claim C6 counterexample: a concrete bulk run successfully aggregates
one record — it appears in the returned list and in the durable tier —
while the in-process cache stays empty, so the bulk path does not write
both tiers. -/
theorem claim6_counterexample :
    ((aggregateAllTokens sampleCsv (fun _ => ⟨[samplePairA], none⟩)
        ⟨[], [], none⟩ 0).1.map TokenData.tokenId = ["dup1"]) ∧
    ((aggregateAllTokens sampleCsv (fun _ => ⟨[samplePairA], none⟩)
        ⟨[], [], none⟩ 0).2.redis.map Prod.fst = ["dup1"]) ∧
    (aggregateAllTokens sampleCsv (fun _ => ⟨[samplePairA], none⟩)
        ⟨[], [], none⟩ 0).2.memoryCache = [] :=
  ⟨rfl, rfl, rfl⟩

/-- Witness for the amended claim C6 theorem at concrete inputs. -/
theorem claim6_witness :
    (∃ td, aggregateToken sampleCsv ⟨[samplePairA], none⟩ ⟨[], [], none⟩ 0
        "dup1" =
        (some td,
         ⟨setMemoryCache [] "dup1" td 0, mapSet [] "dup1" td,
          (none : Option (List TokenData))⟩) ∧
      mapGet (setMemoryCache [] "dup1" td 0) "dup1" = some ⟨td, 0⟩ ∧
      mapGet (mapSet [] "dup1" td) "dup1" = some td) ∧
    (aggregateAllTokens sampleCsv (fun _ => ⟨[samplePairA], none⟩)
        ⟨[], [], none⟩ 0).2.memoryCache = [] :=
  ⟨claim6_cache_tiers.1 sampleCsv ⟨[samplePairA], none⟩ ⟨[], [], none⟩ 0
      "dup1" sampleMeta
      (normalizeDexScreenerData samplePairA sampleMeta 0).body rfl rfl rfl
      rfl rfl,
   claim6_cache_tiers.2 sampleCsv (fun _ => ⟨[samplePairA], none⟩)
      ⟨[], [], none⟩ 0⟩

theorem setMemoryCache_length_le {mem : List (String × MemEntry)}
    (a : String) (d : TokenData) (t : ℕ) (hlen : mem.length ≤ 100)
    (hne : ∀ p ∈ mem, p.1 ≠ "") :
    (setMemoryCache mem a d t).length ≤ 100 := by
  unfold setMemoryCache
  cases hget : mapGet mem a with
  | some v =>
    have h1 : (mapSet mem a ⟨d, t⟩).length = mem.length :=
      mapSet_length_of_get_some _ hget
    rw [if_neg (by omega)]
    omega
  | none =>
    rw [mapSet_eq_append _ hget]
    by_cases hlen2 : 100 < (mem ++ [(a, (⟨d, t⟩ : MemEntry))]).length
    · rw [if_pos hlen2]
      cases mem with
      | nil => simp at hlen2
      | cons m0 ms =>
        obtain ⟨k0, v0⟩ := m0
        rw [List.cons_append]
        dsimp only
        rw [if_neg (hne (k0, v0) (List.mem_cons_self _ _))]
        have hd1 : mapDelete
            ((k0, v0) :: (ms ++ [(a, (⟨d, t⟩ : MemEntry))])) k0 =
            mapDelete (ms ++ [(a, (⟨d, t⟩ : MemEntry))]) k0 := by
          simp [mapDelete]
        rw [hd1]
        have h2 := mapDelete_length_le (ms ++ [(a, (⟨d, t⟩ : MemEntry))]) k0
        simp only [List.length_cons] at hlen
        simp only [List.length_append, List.length_cons,
          List.length_nil] at h2
        omega
    · rw [if_neg hlen2]
      omega

theorem setMemoryCache_evicts_oldest {mem : List (String × MemEntry)}
    (a : String) (d : TokenData) (t : ℕ) (hlen : mem.length = 100)
    (hnodup : (mem.map Prod.fst).Nodup) (hget : mapGet mem a = none)
    (hne : ∀ p ∈ mem, p.1 ≠ "") :
    setMemoryCache mem a d t = mem.tail ++ [(a, ⟨d, t⟩)] := by
  unfold setMemoryCache
  rw [mapSet_eq_append _ hget]
  have hlen2 : 100 < (mem ++ [(a, (⟨d, t⟩ : MemEntry))]).length := by
    simp [hlen]
  rw [if_pos hlen2]
  cases mem with
  | nil => simp at hlen
  | cons m0 ms =>
    obtain ⟨k0, v0⟩ := m0
    rw [List.cons_append]
    dsimp only
    rw [if_neg (hne (k0, v0) (List.mem_cons_self _ _))]
    have hd1 : mapDelete ((k0, v0) :: (ms ++ [(a, (⟨d, t⟩ : MemEntry))])) k0 =
        mapDelete (ms ++ [(a, (⟨d, t⟩ : MemEntry))]) k0 := by
      simp [mapDelete]
    rw [hd1, mapDelete_append]
    have hk0ms : k0 ∉ ms.map Prod.fst := by
      simp only [List.map_cons] at hnodup
      exact (List.nodup_cons.mp hnodup).1
    have hms : mapGet ms k0 = none := by
      rw [mapGet_eq_none_iff]
      intro p hp hpk
      exact hk0ms (hpk ▸ List.mem_map_of_mem _ hp)
    have hka : k0 ≠ a :=
      (mapGet_eq_none_iff _ _).mp hget (k0, v0) (List.mem_cons_self _ _)
    rw [mapDelete_eq_self hms]
    have hlast : mapDelete [(a, (⟨d, t⟩ : MemEntry))] k0 =
        [(a, (⟨d, t⟩ : MemEntry))] := by
      simp [mapDelete, Ne.symm hka]
    rw [hlast]
    rfl

/-- Claim C7: the in-process cache never grows beyond 100 entries — a
setMemoryCache on a cache of at most 100 entries (with the real-world
non-empty keys) leaves at most 100 — and inserting a 101st distinct
address evicts exactly the oldest-inserted entry: the result is the old
cache minus its head plus the new entry at the end, so no other entry is
removed. -/
theorem claim7_memory_cache_bound :
    (∀ (mem : List (String × MemEntry)) (a : String) (d : TokenData)
       (t : ℕ), mem.length ≤ 100 → (∀ p ∈ mem, p.1 ≠ "") →
      (setMemoryCache mem a d t).length ≤ 100) ∧
    (∀ (mem : List (String × MemEntry)) (a : String) (d : TokenData)
       (t : ℕ), mem.length = 100 → (mem.map Prod.fst).Nodup →
      mapGet mem a = none → (∀ p ∈ mem, p.1 ≠ "") →
      setMemoryCache mem a d t = mem.tail ++ [(a, ⟨d, t⟩)]) :=
  ⟨fun _ a d t hlen hne => setMemoryCache_length_le a d t hlen hne,
   fun _ a d t hlen hnodup hget hne =>
     setMemoryCache_evicts_oldest a d t hlen hnodup hget hne⟩

/-- Witness for claim C7 on a concrete 100-entry cache. -/
theorem claim7_witness :
    (sampleMem100.length = 100 ∧ (sampleMem100.map Prod.fst).Nodup ∧
      mapGet sampleMem100 "newaddr" = none ∧
      (∀ p ∈ sampleMem100, p.1 ≠ "")) ∧
    (setMemoryCache sampleMem100 "newaddr" (sampleToken "newaddr" 0)
      3).length ≤ 100 ∧
    setMemoryCache sampleMem100 "newaddr" (sampleToken "newaddr" 0) 3 =
      sampleMem100.tail ++ [("newaddr", ⟨sampleToken "newaddr" 0, 3⟩)] :=
  ⟨⟨by decide, by decide, by decide, by decide⟩,
   claim7_memory_cache_bound.1 sampleMem100 "newaddr"
     (sampleToken "newaddr" 0) 3 (by decide) (by decide),
   claim7_memory_cache_bound.2 sampleMem100 "newaddr"
     (sampleToken "newaddr" 0) 3 (by decide) (by decide) (by decide)
     (by decide)⟩

theorem checkRateLimit_invariant (l : Limiter) (now : ℕ)
    (hmax : 1 ≤ l.maxRequests) (hcount : l.requestCount ≤ l.maxRequests) :
    (checkRateLimit l now).1.requestCount ≤ l.maxRequests ∧
    (checkRateLimit l now).1.maxRequests = l.maxRequests := by
  obtain ⟨maxR, per, count, reset⟩ := l
  simp only at hmax hcount
  unfold checkRateLimit
  by_cases hreset : reset ≤ now
  · simp only [if_pos hreset]
    by_cases hb : maxR ≤ 0
    · exact absurd hmax (by omega)
    · simp only [if_neg hb]
      exact ⟨by omega, trivial⟩
  · simp only [if_neg hreset]
    by_cases hb : maxR ≤ count
    · simp only [if_pos hb]
      exact ⟨hmax, trivial⟩
    · simp only [if_neg hb]
      exact ⟨by omega, trivial⟩

theorem runCalls_count_invariant (ts : List ℕ) :
    ∀ (l : Limiter) (clock : ℕ), 1 ≤ l.maxRequests →
    l.requestCount ≤ l.maxRequests →
    (runCalls l clock ts).2.1.requestCount ≤
      (runCalls l clock ts).2.1.maxRequests := by
  induction ts with
  | nil => intro l clock h1 h2; exact h2
  | cons t rest ih =>
    intro l clock h1 h2
    have hstep := checkRateLimit_invariant l (max clock t) h1 h2
    simp only [runCalls]
    exact ih _ _ (hstep.2 ▸ h1) (hstep.2 ▸ hstep.1)

theorem checkRateLimit_unblocked (maxR per k r now : ℕ) (hk : k < maxR)
    (hnow : now < r) :
    checkRateLimit ⟨maxR, per, k, r⟩ now =
      (⟨maxR, per, k + 1, r⟩, false, now) := by
  unfold checkRateLimit
  rw [if_neg (by omega : ¬r ≤ now)]
  simp only [if_neg (by omega : ¬maxR ≤ k)]

theorem checkRateLimit_blocked (maxR per k r now : ℕ) (hk : maxR ≤ k)
    (hnow : now < r) :
    checkRateLimit ⟨maxR, per, k, r⟩ now =
      (⟨maxR, per, 1, r + per⟩, true, r) := by
  unfold checkRateLimit
  rw [if_neg (by omega : ¬r ≤ now)]
  simp only [if_pos hk]

theorem runCalls_append (l : Limiter) (clock : ℕ) (ts1 ts2 : List ℕ) :
    runCalls l clock (ts1 ++ ts2) =
      ((runCalls l clock ts1).1 ++
        (runCalls (runCalls l clock ts1).2.1 (runCalls l clock ts1).2.2
          ts2).1,
       (runCalls (runCalls l clock ts1).2.1 (runCalls l clock ts1).2.2
          ts2).2) := by
  induction ts1 generalizing l clock with
  | nil => simp [runCalls]
  | cons t rest ih =>
    simp only [List.cons_append, runCalls, List.append_eq, ih,
      List.nil_append]

theorem runCalls_under_quota (maxR per r : ℕ) (ts : List ℕ) :
    ∀ (k clock : ℕ), 1 ≤ maxR → k + ts.length ≤ maxR → clock < r →
    (∀ u ∈ ts, u < r) →
    ((runCalls ⟨maxR, per, k, r⟩ clock ts).1.map Prod.fst =
      List.replicate ts.length false) ∧
    (runCalls ⟨maxR, per, k, r⟩ clock ts).2.1 =
      ⟨maxR, per, k + ts.length, r⟩ ∧
    (runCalls ⟨maxR, per, k, r⟩ clock ts).2.2 < r := by
  induction ts with
  | nil =>
    intro k clock h1 h2 h3 h4
    exact ⟨rfl, rfl, h3⟩
  | cons t rest ih =>
    intro k clock h1 h2 h3 h4
    have hnow : max clock t < r :=
      Nat.max_lt.mpr ⟨h3, h4 t (List.mem_cons_self _ _)⟩
    have hk : k < maxR := by
      simp only [List.length_cons] at h2
      omega
    have hstep := checkRateLimit_unblocked maxR per k r (max clock t) hk hnow
    simp only [runCalls, hstep]
    have hrest := ih (k + 1) (max clock t) h1
      (by simp only [List.length_cons] at h2; omega) hnow
      (fun u hu => h4 u (List.mem_cons_of_mem _ hu))
    refine ⟨?_, ?_, hrest.2.2⟩
    · simp only [List.map_cons, hrest.1, List.length_cons,
        List.replicate_succ]
    · rw [hrest.2.1]
      simp only [List.length_cons]
      congr 1
      omega

/-- Claim C2 (amended): for a provider limiter (DexScreener 250, Gecko-
Terminal 25 per 60s window), across sequential calls arriving within one
window starting from a fresh window: the first max calls are dispatched
without blocking, the (max+1)-th call blocks and is dispatched exactly at
the window reset time, and the counter never exceeds max (each
checkRateLimit preserves requestCount at most maxRequests, and so does any
sequence of calls).  After the blocking call the window restarts with the
quota afresh, so later calls are not forced to block (see the
counterexample for the original claim's stronger statement). -/
theorem claim2_rate_limit_window :
    (∀ t0 : ℕ, (dexScreenerLimiter t0).maxRequests = 250 ∧
      (geckoTerminalLimiter t0).maxRequests = 25 ∧
      (dexScreenerLimiter t0).requestCount = 0 ∧
      (geckoTerminalLimiter t0).requestCount = 0) ∧
    (∀ (l : Limiter) (now : ℕ), 1 ≤ l.maxRequests →
      l.requestCount ≤ l.maxRequests →
      (checkRateLimit l now).1.requestCount ≤ l.maxRequests) ∧
    (∀ (ts : List ℕ) (l : Limiter) (clock : ℕ), 1 ≤ l.maxRequests →
      l.requestCount ≤ l.maxRequests →
      (runCalls l clock ts).2.1.requestCount ≤
        (runCalls l clock ts).2.1.maxRequests) ∧
    (∀ (maxR per r : ℕ) (ts1 : List ℕ) (t clock : ℕ), 1 ≤ maxR →
      ts1.length = maxR → clock < r → (∀ u ∈ ts1, u < r) → t < r →
      ((runCalls ⟨maxR, per, 0, r⟩ clock ts1).1.map Prod.fst =
        List.replicate maxR false) ∧
      (runCalls ⟨maxR, per, 0, r⟩ clock (ts1 ++ [t])).1 =
        (runCalls ⟨maxR, per, 0, r⟩ clock ts1).1 ++ [(true, r)]) := by
  refine ⟨fun t0 => ⟨rfl, rfl, rfl, rfl⟩,
    fun l now h1 h2 => (checkRateLimit_invariant l now h1 h2).1,
    fun ts l clock h1 h2 => runCalls_count_invariant ts l clock h1 h2,
    ?_⟩
  intro maxR per r ts1 t clock h1 hlen hclock hts ht
  have hq := runCalls_under_quota maxR per r ts1 0 clock h1
    (by omega) hclock hts
  refine ⟨hlen ▸ hq.1, ?_⟩
  rw [runCalls_append, hq.2.1]
  have hblocked := checkRateLimit_blocked maxR per (0 + ts1.length) (r)
    (max (runCalls ⟨maxR, per, 0, r⟩ clock ts1).2.2 t)
    (by omega)
    (Nat.max_lt.mpr ⟨hq.2.2, ht⟩)
  simp only [runCalls, hblocked]

/-- Claim C2 counterexample: 27 calls to the GeckoTerminal limiter
(max 25) all arriving at time 0 inside a fresh 60s window: calls 1-25
pass, call 26 blocks until the window reset, but call 27 — also issued
within the original window — is dispatched without blocking, contradicting
the claim that the (max+1)-th AND LATER calls all block until the window
reset. -/
theorem claim2_counterexample :
    ((runCalls (geckoTerminalLimiter 0) 0 (List.replicate 27 0)).1.map
      Prod.fst =
      List.replicate 25 false ++ [true, false]) ∧
    ((runCalls (geckoTerminalLimiter 0) 0 (List.replicate 27 0)).1.map
      Prod.fst ≠
      List.replicate 25 false ++ [true, true]) := by
  constructor <;> decide

/-- Witness for the amended claim C2 theorem at the concrete GeckoTerminal
quota (25 per 60000 ms window), 26 calls all arriving at time 0. -/
theorem claim2_witness :
    ((runCalls ⟨25, 60000, 0, 60000⟩ 0 (List.replicate 25 0)).1.map
      Prod.fst = List.replicate 25 false) ∧
    (runCalls ⟨25, 60000, 0, 60000⟩ 0 (List.replicate 25 0 ++ [0])).1 =
      (runCalls ⟨25, 60000, 0, 60000⟩ 0 (List.replicate 25 0)).1 ++
        [(true, 60000)] ∧
    (checkRateLimit ⟨25, 60000, 7, 60000⟩ 3).1.requestCount ≤ 25 :=
  ⟨(claim2_rate_limit_window.2.2.2 25 60000 60000 (List.replicate 25 0) 0 0
      (by decide) (by decide) (by decide) (by decide) (by decide)).1,
   (claim2_rate_limit_window.2.2.2 25 60000 60000 (List.replicate 25 0) 0 0
      (by decide) (by decide) (by decide) (by decide) (by decide)).2,
   claim2_rate_limit_window.2.1 ⟨25, 60000, 7, 60000⟩ 3 (by decide)
     (by decide)⟩

theorem retryLoop_ok_step {α : Type} (op : ℕ → Except ApiFailure α)
    (config : RetryConfig) (jitter : ℕ → ℚ) (attempt fuel made : ℕ)
    (lastError : Option ApiFailure) (sleeps : List ℚ) (v : α)
    (hop : op attempt = .ok v) :
    retryLoop op config jitter attempt (fuel + 1) lastError made sleeps =
      ⟨.ok v, made + 1, sleeps⟩ := by
  unfold retryLoop
  rw [hop]

theorem retryLoop_retryable_step {α : Type} (op : ℕ → Except ApiFailure α)
    (config : RetryConfig) (jitter : ℕ → ℚ) (attempt fuel made : ℕ)
    (lastError : Option ApiFailure) (sleeps : List ℚ) (e : ApiFailure)
    (hop : op attempt = .error e) (hnr : isNonRetryable e = false)
    (h429 : is429 e = false) (hlt : attempt < config.maxRetries) :
    retryLoop op config jitter attempt (fuel + 1) lastError made sleeps =
      retryLoop op config jitter (attempt + 1) fuel (some e) (made + 1)
        (sleeps ++ [calculateBackoffDelay attempt config (jitter attempt)]) := by
  conv_lhs => rw [retryLoop]
  rw [hop]
  simp [hnr, h429, hlt]

theorem retryLoop_exhaust_step {α : Type} (op : ℕ → Except ApiFailure α)
    (config : RetryConfig) (jitter : ℕ → ℚ) (attempt fuel made : ℕ)
    (lastError : Option ApiFailure) (sleeps : List ℚ) (e : ApiFailure)
    (hop : op attempt = .error e) (hnr : isNonRetryable e = false)
    (h429 : is429 e = false) (hge : ¬attempt < config.maxRetries) :
    retryLoop op config jitter attempt (fuel + 1) lastError made sleeps =
      ⟨.error e, made + 1, sleeps⟩ := by
  unfold retryLoop
  rw [hop]
  simp [hnr, h429, hge]

theorem retryLoop_nonretryable_step {α : Type}
    (op : ℕ → Except ApiFailure α) (config : RetryConfig) (jitter : ℕ → ℚ)
    (attempt fuel made : ℕ) (lastError : Option ApiFailure)
    (sleeps : List ℚ) (e : ApiFailure) (hop : op attempt = .error e)
    (hnr : isNonRetryable e = true) :
    retryLoop op config jitter attempt (fuel + 1) lastError made sleeps =
      ⟨.error e, made + 1, sleeps⟩ := by
  have h429 : is429 e = false := by
    cases e with
    | http status retryAfter =>
      simp only [isNonRetryable, Bool.and_eq_true, bne_iff_ne,
        decide_eq_true_eq] at hnr
      simp only [is429, beq_eq_false_iff_ne]
      exact hnr.2
    | network => rfl
  unfold retryLoop
  rw [hop]
  simp [hnr, h429]

theorem retryLoop_attempts_le {α : Type} (op : ℕ → Except ApiFailure α)
    (config : RetryConfig) (jitter : ℕ → ℚ) :
    ∀ (fuel attempt made : ℕ) (lastError : Option ApiFailure)
      (sleeps : List ℚ),
    (retryLoop op config jitter attempt fuel lastError made
      sleeps).attempts ≤ made + fuel := by
  intro fuel
  induction fuel with
  | zero =>
    intro attempt made lastError sleeps
    simp [retryLoop]
  | succ f ih =>
    intro attempt made lastError sleeps
    cases hop : op attempt with
    | ok v =>
      rw [retryLoop_ok_step op config jitter attempt f made lastError
        sleeps v hop]
      exact (show made + 1 ≤ made + (f + 1) by omega)
    | error e =>
      cases hnr : isNonRetryable e with
      | true =>
        rw [retryLoop_nonretryable_step op config jitter attempt f made
          lastError sleeps e hop hnr]
        exact (show made + 1 ≤ made + (f + 1) by omega)
      | false =>
        cases h429 : is429 e with
        | true =>
          unfold retryLoop
          rw [hop]
          simp only [h429, hnr, Bool.false_eq_true, if_false, if_true]
          by_cases hlt : attempt < config.maxRetries
          · rw [if_pos hlt]
            have hrec := ih (attempt + 1) (made + 1) (some e)
              ((sleeps ++ [rateLimitSleep config (retryAfterOf e)]) ++
                [calculateBackoffDelay attempt config (jitter attempt)])
            omega
          · rw [if_neg hlt]
            exact (show made + 1 ≤ made + (f + 1) by omega)
        | false =>
          by_cases hlt : attempt < config.maxRetries
          · rw [retryLoop_retryable_step op config jitter attempt f made
              lastError sleeps e hop hnr h429 hlt]
            have hrec := ih (attempt + 1) (made + 1) (some e)
              (sleeps ++ [calculateBackoffDelay attempt config
                (jitter attempt)])
            omega
          · rw [retryLoop_exhaust_step op config jitter attempt f made
              lastError sleeps e hop hnr h429 hlt]
            exact (show made + 1 ≤ made + (f + 1) by omega)

theorem retryLoop_nonretryable_run {α : Type} (op : ℕ → Except ApiFailure α)
    (config : RetryConfig) (jitter : ℕ → ℚ) (e : ApiFailure) :
    ∀ (a fuel attempt made : ℕ) (lastError : Option ApiFailure)
      (sleeps : List ℚ),
    a < fuel →
    attempt + fuel = config.maxRetries + 1 →
    (∀ i, i < a → ∃ ei, op (attempt + i) = .error ei ∧
      isNonRetryable ei = false) →
    op (attempt + a) = .error e → isNonRetryable e = true →
    (retryLoop op config jitter attempt fuel lastError made
      sleeps).result = .error e ∧
    (retryLoop op config jitter attempt fuel lastError made
      sleeps).attempts = made + a + 1 := by
  intro a
  induction a with
  | zero =>
    intro fuel attempt made lastError sleeps hfuel htot hprev hop hnr
    obtain ⟨f, rfl⟩ : ∃ f, fuel = f + 1 := ⟨fuel - 1, by omega⟩
    rw [retryLoop_nonretryable_step op config jitter attempt f made
      lastError sleeps e (by simpa using hop) hnr]
    exact ⟨rfl, rfl⟩
  | succ k ih =>
    intro fuel attempt made lastError sleeps hfuel htot hprev hop hnr
    obtain ⟨f, rfl⟩ : ∃ f, fuel = f + 1 := ⟨fuel - 1, by omega⟩
    obtain ⟨e0, hop0, hnr0⟩ := hprev 0 (by omega)
    have hlt : attempt < config.maxRetries := by omega
    have hprev1 : ∀ i, i < k →
        ∃ ei, op (attempt + 1 + i) = .error ei ∧
          isNonRetryable ei = false := by
      intro i hi
      obtain ⟨ei, hei, hnei⟩ := hprev (i + 1) (by omega)
      refine ⟨ei, ?_, hnei⟩
      rw [show attempt + 1 + i = attempt + (i + 1) by omega]
      exact hei
    have hop1 : op (attempt + 1 + k) = .error e := by
      rw [show attempt + 1 + k = attempt + (k + 1) by omega]
      exact hop
    cases h429 : is429 e0 with
    | true =>
      have hstep : retryLoop op config jitter attempt (f + 1) lastError
          made sleeps =
          retryLoop op config jitter (attempt + 1) f (some e0) (made + 1)
            ((sleeps ++ [rateLimitSleep config (retryAfterOf e0)]) ++
              [calculateBackoffDelay attempt config (jitter attempt)]) := by
        conv_lhs => rw [retryLoop]
        rw [show op attempt = .error e0 by simpa using hop0]
        simp [h429, hnr0, hlt]
      rw [hstep]
      have hrec := ih f (attempt + 1) (made + 1) (some e0)
        ((sleeps ++ [rateLimitSleep config (retryAfterOf e0)]) ++
          [calculateBackoffDelay attempt config (jitter attempt)])
        (by omega) (by omega) hprev1 hop1 hnr
      refine ⟨hrec.1, ?_⟩
      rw [hrec.2]
      omega
    | false =>
      rw [retryLoop_retryable_step op config jitter attempt f made
        lastError sleeps e0 (by simpa using hop0) hnr0 h429 hlt]
      have hrec := ih f (attempt + 1) (made + 1) (some e0)
        (sleeps ++ [calculateBackoffDelay attempt config (jitter attempt)])
        (by omega) (by omega) hprev1 hop1 hnr
      refine ⟨hrec.1, ?_⟩
      rw [hrec.2]
      omega

theorem retry_all_retryable {α : Type} (op : ℕ → Except ApiFailure α)
    (jitter : ℕ → ℚ) (err : ℕ → ApiFailure)
    (hop : ∀ i, op i = .error (err i))
    (hnr : ∀ i, isNonRetryable (err i) = false)
    (h429 : ∀ i, is429 (err i) = false) :
    retryWithBackoff op DEFAULT_RETRY_CONFIG jitter =
      ⟨.error (err 5), 6,
       [calculateBackoffDelay 0 DEFAULT_RETRY_CONFIG (jitter 0),
        calculateBackoffDelay 1 DEFAULT_RETRY_CONFIG (jitter 1),
        calculateBackoffDelay 2 DEFAULT_RETRY_CONFIG (jitter 2),
        calculateBackoffDelay 3 DEFAULT_RETRY_CONFIG (jitter 3),
        calculateBackoffDelay 4 DEFAULT_RETRY_CONFIG (jitter 4)]⟩ := by
  unfold retryWithBackoff
  rw [show DEFAULT_RETRY_CONFIG.maxRetries + 1 = 5 + 1 from rfl]
  rw [retryLoop_retryable_step op DEFAULT_RETRY_CONFIG jitter 0 5 0 none []
    (err 0) (hop 0) (hnr 0) (h429 0) (by decide)]
  rw [show (5 : ℕ) = 4 + 1 from rfl]
  rw [retryLoop_retryable_step op DEFAULT_RETRY_CONFIG jitter 1 4 1 _ _
    (err 1) (hop 1) (hnr 1) (h429 1) (by decide)]
  rw [show (4 : ℕ) = 3 + 1 from rfl]
  rw [retryLoop_retryable_step op DEFAULT_RETRY_CONFIG jitter 2 3 2 _ _
    (err 2) (hop 2) (hnr 2) (h429 2) (by decide)]
  rw [show (3 : ℕ) = 2 + 1 from rfl]
  rw [retryLoop_retryable_step op DEFAULT_RETRY_CONFIG jitter 3 2 3 _ _
    (err 3) (hop 3) (hnr 3) (h429 3) (by decide)]
  rw [show (2 : ℕ) = 1 + 1 from rfl]
  rw [retryLoop_retryable_step op DEFAULT_RETRY_CONFIG jitter 4 1 4 _ _
    (err 4) (hop 4) (hnr 4) (h429 4) (by decide)]
  rw [show (1 : ℕ) = 0 + 1 from rfl]
  rw [retryLoop_exhaust_step op DEFAULT_RETRY_CONFIG jitter 5 0 5 _ _
    (err 5) (hop 5) (hnr 5) (h429 5) (by decide)]
  simp

/-- Claim C5 (amended): with the default retry configuration every fetch
makes at most SIX attempts in total (one initial try plus maxRetries = 5
retries, not five attempts as claimed); a 4xx response other than 429 at
any point fails immediately with that error after that attempt; when every
attempt fails with a retryable non-429 error the fetch makes exactly six
attempts, fails with the last attempt's error, and sleeps
min(2s·2^a, 30s) + jitter(a) after each failed attempt a = 0..4, where the
jitter is at most (strictly below) one second. -/
theorem claim5_retry_policy :
    (∀ (op : ℕ → Except ApiFailure Unit) (jitter : ℕ → ℚ),
      (retryWithBackoff op DEFAULT_RETRY_CONFIG jitter).attempts ≤ 6) ∧
    (∀ (op : ℕ → Except ApiFailure Unit) (jitter : ℕ → ℚ) (a : ℕ)
       (e : ApiFailure),
      a < 6 →
      (∀ i, i < a → ∃ ei, op i = .error ei ∧ isNonRetryable ei = false) →
      op a = .error e → isNonRetryable e = true →
      (retryWithBackoff op DEFAULT_RETRY_CONFIG jitter).result =
        .error e ∧
      (retryWithBackoff op DEFAULT_RETRY_CONFIG jitter).attempts = a + 1) ∧
    (∀ (op : ℕ → Except ApiFailure Unit) (jitter : ℕ → ℚ)
       (err : ℕ → ApiFailure),
      (∀ i, op i = .error (err i)) →
      (∀ i, isNonRetryable (err i) = false) →
      (∀ i, is429 (err i) = false) →
      retryWithBackoff op DEFAULT_RETRY_CONFIG jitter =
        ⟨.error (err 5), 6,
         [calculateBackoffDelay 0 DEFAULT_RETRY_CONFIG (jitter 0),
          calculateBackoffDelay 1 DEFAULT_RETRY_CONFIG (jitter 1),
          calculateBackoffDelay 2 DEFAULT_RETRY_CONFIG (jitter 2),
          calculateBackoffDelay 3 DEFAULT_RETRY_CONFIG (jitter 3),
          calculateBackoffDelay 4 DEFAULT_RETRY_CONFIG (jitter 4)]⟩) ∧
    (∀ (a : ℕ) (j : ℚ), 0 ≤ j → j < 1000 →
      min (2000 * 2 ^ a) 30000 ≤
        calculateBackoffDelay a DEFAULT_RETRY_CONFIG j ∧
      calculateBackoffDelay a DEFAULT_RETRY_CONFIG j <
        min (2000 * 2 ^ a) 30000 + 1000) := by
  refine ⟨?_, ?_, ?_, ?_⟩
  · intro op jitter
    exact le_trans (retryLoop_attempts_le op DEFAULT_RETRY_CONFIG jitter
      (DEFAULT_RETRY_CONFIG.maxRetries + 1) 0 0 none []) (by decide)
  · intro op jitter a e ha hprev hop hnr
    have := retryLoop_nonretryable_run op DEFAULT_RETRY_CONFIG jitter e a
      (DEFAULT_RETRY_CONFIG.maxRetries + 1) 0 0 none []
      (by simpa using ha) (by decide)
      (fun i hi => by simpa using hprev i hi) (by simpa using hop) hnr
    refine ⟨this.1, ?_⟩
    show (retryLoop op DEFAULT_RETRY_CONFIG jitter 0
      (DEFAULT_RETRY_CONFIG.maxRetries + 1) none 0 []).attempts = a + 1
    rw [this.2]
    omega
  · intro op jitter err hop hnr h429
    exact retry_all_retryable op jitter err hop hnr h429
  · intro a j h0 h1
    unfold calculateBackoffDelay DEFAULT_RETRY_CONFIG
    constructor <;> dsimp only <;> linarith

/-- Claim C5 counterexample: an operation that fails with a network error
on every attempt is attempted SIX times by the default configuration, not
at most five as the claim states. -/
theorem claim5_counterexample :
    (retryWithBackoff
      (fun _ => (Except.error ApiFailure.network : Except ApiFailure Unit))
      DEFAULT_RETRY_CONFIG (fun _ => 0)).attempts = 6 ∧
    ¬(retryWithBackoff
      (fun _ => (Except.error ApiFailure.network : Except ApiFailure Unit))
      DEFAULT_RETRY_CONFIG (fun _ => 0)).attempts ≤ 5 := by
  constructor
  · rfl
  · intro h
    have : (6 : ℕ) ≤ 5 := h
    omega

/-- Witness for the amended claim C5 theorem at concrete operations. -/
theorem claim5_witness :
    ((retryWithBackoff
        (fun _ => (Except.error ApiFailure.network : Except ApiFailure Unit))
        DEFAULT_RETRY_CONFIG (fun _ => 0)).attempts ≤ 6) ∧
    ((retryWithBackoff
        (fun _ => (Except.error (ApiFailure.http 404 none) :
          Except ApiFailure Unit))
        DEFAULT_RETRY_CONFIG (fun _ => 0)).result =
        .error (ApiFailure.http 404 none) ∧
      (retryWithBackoff
        (fun _ => (Except.error (ApiFailure.http 404 none) :
          Except ApiFailure Unit))
        DEFAULT_RETRY_CONFIG (fun _ => 0)).attempts = 0 + 1) ∧
    (retryWithBackoff
        (fun _ => (Except.error ApiFailure.network : Except ApiFailure Unit))
        DEFAULT_RETRY_CONFIG (fun _ => 0) =
      ⟨.error ApiFailure.network, 6,
       [calculateBackoffDelay 0 DEFAULT_RETRY_CONFIG 0,
        calculateBackoffDelay 1 DEFAULT_RETRY_CONFIG 0,
        calculateBackoffDelay 2 DEFAULT_RETRY_CONFIG 0,
        calculateBackoffDelay 3 DEFAULT_RETRY_CONFIG 0,
        calculateBackoffDelay 4 DEFAULT_RETRY_CONFIG 0]⟩) ∧
    (min (2000 * 2 ^ 0 : ℚ) 30000 ≤
        calculateBackoffDelay 0 DEFAULT_RETRY_CONFIG 500 ∧
      calculateBackoffDelay 0 DEFAULT_RETRY_CONFIG 500 <
        min (2000 * 2 ^ 0 : ℚ) 30000 + 1000) :=
  ⟨claim5_retry_policy.1 _ _,
   claim5_retry_policy.2.1 (fun _ => .error (ApiFailure.http 404 none))
     (fun _ => 0) 0 (ApiFailure.http 404 none) (by omega)
     (fun i hi => absurd hi (by omega)) rfl (by decide),
   claim5_retry_policy.2.2.1 (fun _ => .error ApiFailure.network)
     (fun _ => 0) (fun _ => ApiFailure.network) (fun _ => rfl)
     (fun _ => rfl) (fun _ => rfl),
   claim5_retry_policy.2.2.2 0 500 (by norm_num) (by norm_num)⟩

theorem broadcastPriceUpdates_acc (now : ℕ) (ts : List TokenData) :
    ∀ acc : List PriceUpdateEvent × List VolumeSpikeEvent ×
      List (String × TokenData),
    ts.foldl
      (fun acc token =>
        let stepped := broadcastStep acc.2.2 token now
        (acc.1 ++ stepped.1, acc.2.1 ++ stepped.2.1, stepped.2.2))
      acc =
    (acc.1 ++ (broadcastPriceUpdates acc.2.2 ts now).1,
     acc.2.1 ++ (broadcastPriceUpdates acc.2.2 ts now).2.1,
     (broadcastPriceUpdates acc.2.2 ts now).2.2) := by
  induction ts with
  | nil =>
    intro acc
    obtain ⟨us, ss, m⟩ := acc
    simp [broadcastPriceUpdates]
  | cons t rest ih =>
    intro acc
    obtain ⟨us, ss, m⟩ := acc
    have hr : broadcastPriceUpdates m (t :: rest) now =
        ((broadcastStep m t now).1 ++
          (broadcastPriceUpdates (broadcastStep m t now).2.2 rest now).1,
         (broadcastStep m t now).2.1 ++
          (broadcastPriceUpdates (broadcastStep m t now).2.2 rest
            now).2.1,
         (broadcastPriceUpdates (broadcastStep m t now).2.2 rest
            now).2.2) := by
      unfold broadcastPriceUpdates
      rw [List.foldl_cons]
      have hini := ih (([] : List PriceUpdateEvent) ++
        (broadcastStep m t now).1,
        ([] : List VolumeSpikeEvent) ++ (broadcastStep m t now).2.1,
        (broadcastStep m t now).2.2)
      simp only [List.nil_append] at hini
      exact hini
    rw [List.foldl_cons]
    have hl := ih (us ++ (broadcastStep m t now).1,
      ss ++ (broadcastStep m t now).2.1, (broadcastStep m t now).2.2)
    rw [hl, hr]
    simp [List.append_assoc]

theorem broadcastStep_spike_iff (prev : List (String × TokenData))
    (token : TokenData) (now : ℕ) :
    (broadcastStep prev token now).2.1 ≠ [] ↔
      ∃ p, mapGet prev token.tokenId = some p ∧
        0 < token.body.volume.h24 ∧
        VOLUME_SPIKE_THRESHOLD ≤ token.body.volume.h24 /
          (if p.body.volume.h24 = 0 then 1 else p.body.volume.h24) := by
  unfold broadcastStep
  cases hp : mapGet prev token.tokenId with
  | none => simp
  | some p =>
    dsimp only
    by_cases h1 : 0 < token.body.volume.h24
    · rw [if_pos h1]
      by_cases h2 : VOLUME_SPIKE_THRESHOLD ≤ token.body.volume.h24 /
          (if p.body.volume.h24 = 0 then 1 else p.body.volume.h24)
      · rw [if_pos h2]
        simp [h1, h2]
      · rw [if_neg h2]
        simp [h1, h2]
    · rw [if_neg h1]
      simp [h1]

theorem broadcastStep_spike_value (prev : List (String × TokenData))
    (token : TokenData) (now : ℕ) (p : TokenData) (e : VolumeSpikeEvent)
    (hp : mapGet prev token.tokenId = some p)
    (he : e ∈ (broadcastStep prev token now).2.1) :
    e.percentageIncrease =
      (token.body.volume.h24 /
        (if p.body.volume.h24 = 0 then 1 else p.body.volume.h24) - 1) *
        100 ∧
    e.previousVolume = p.body.volume.h24 ∧
    e.volume = token.body.volume.h24 := by
  unfold broadcastStep at he
  rw [hp] at he
  dsimp only at he
  by_cases h1 : 0 < token.body.volume.h24
  · rw [if_pos h1] at he
    by_cases h2 : VOLUME_SPIKE_THRESHOLD ≤ token.body.volume.h24 /
        (if p.body.volume.h24 = 0 then 1 else p.body.volume.h24)
    · rw [if_pos h2] at he
      rw [List.mem_singleton.mp he]
      exact ⟨rfl, rfl, rfl⟩
    · rw [if_neg h2] at he
      exact absurd he (List.not_mem_nil e)
  · rw [if_neg h1] at he
    exact absurd he (List.not_mem_nil e)

/-- Claim C8 (amended): a volume-spike event is emitted for a record of a
broadcast batch iff a previous record exists for the address, the NEW 24h
volume is positive, and the ratio of the new volume to the previous volume
— with a previous volume of 0 replaced by 1 — is at least 1.5 (the claim's
requirement that the PREVIOUS volume be positive does not hold: see the
counterexample); the emitted percentage increase is (ratio − 1)·100, so
previous volume 1,000,000 and new volume 1,600,000 emit
percentageIncrease = 60; batch processing is the per-record step threaded
left-to-right through the last-broadcast map. -/
theorem claim8_volume_spike :
    (∀ (prev : List (String × TokenData)) (token : TokenData) (now : ℕ),
      (broadcastStep prev token now).2.1 ≠ [] ↔
        ∃ p, mapGet prev token.tokenId = some p ∧
          0 < token.body.volume.h24 ∧
          VOLUME_SPIKE_THRESHOLD ≤ token.body.volume.h24 /
            (if p.body.volume.h24 = 0 then 1
             else p.body.volume.h24)) ∧
    (∀ (prev : List (String × TokenData)) (token : TokenData) (now : ℕ)
       (p : TokenData) (e : VolumeSpikeEvent),
      mapGet prev token.tokenId = some p →
      e ∈ (broadcastStep prev token now).2.1 →
      e.percentageIncrease =
        (token.body.volume.h24 /
          (if p.body.volume.h24 = 0 then 1 else p.body.volume.h24) - 1) *
          100 ∧
      e.previousVolume = p.body.volume.h24 ∧
      e.volume = token.body.volume.h24) ∧
    (∀ (prev : List (String × TokenData)) (ts1 ts2 : List TokenData)
       (now : ℕ),
      (broadcastPriceUpdates prev (ts1 ++ ts2) now).2.1 =
        (broadcastPriceUpdates prev ts1 now).2.1 ++
          (broadcastPriceUpdates (broadcastPriceUpdates prev ts1 now).2.2
            ts2 now).2.1) ∧
    ((broadcastPriceUpdates [("a", sampleToken "a" 1000000)]
        [sampleToken "a" 1600000] 3).2.1.map
        VolumeSpikeEvent.percentageIncrease = [60]) := by
  refine ⟨broadcastStep_spike_iff, broadcastStep_spike_value, ?_, ?_⟩
  · intro prev ts1 ts2 now
    unfold broadcastPriceUpdates
    rw [List.foldl_append]
    rw [broadcastPriceUpdates_acc now ts2
      (ts1.foldl
        (fun acc token =>
          let stepped := broadcastStep acc.2.2 token now
          (acc.1 ++ stepped.1, acc.2.1 ++ stepped.2.1, stepped.2.2))
        ([], [], prev))]
    rfl
  · norm_num [broadcastPriceUpdates, broadcastStep, mapGet, mapSet,
      sampleToken, sampleBody, VOLUME_SPIKE_THRESHOLD]

/-- Claim C8 counterexample: with a stored previous record whose 24h
volume is 0 and a new volume of 2, the code emits a volume-spike event
(the ratio is computed against the fallback divisor 1), although the claim
says a spike is emitted only when the previous 24h volume is positive. -/
theorem claim8_counterexample :
    (broadcastPriceUpdates [("a", sampleToken "a" 0)] [sampleToken "a" 2]
        7).2.1 = [⟨"a", "SYM", 2, 0, 100, 7⟩] ∧
    ¬(0 : ℚ) < (sampleToken "a" 0).body.volume.h24 := by
  constructor
  · norm_num [broadcastPriceUpdates, broadcastStep, mapGet, mapSet,
      sampleToken, sampleBody, VOLUME_SPIKE_THRESHOLD]
  · norm_num [sampleToken, sampleBody]

/-- Witness for the amended claim C8 theorem at the documented
1,000,000 to 1,600,000 volume scenario. -/
theorem claim8_witness :
    (mapGet [("a", sampleToken "a" 1000000)]
        (sampleToken "a" 1600000).tokenId = some (sampleToken "a" 1000000) ∧
      (⟨"a", "SYM", 1600000, 1000000, 60, 3⟩ : VolumeSpikeEvent) ∈
        (broadcastStep [("a", sampleToken "a" 1000000)]
          (sampleToken "a" 1600000) 3).2.1) ∧
    (⟨"a", "SYM", 1600000, 1000000, 60, 3⟩ :
        VolumeSpikeEvent).percentageIncrease =
      ((sampleToken "a" 1600000).body.volume.h24 /
        (if (sampleToken "a" 1000000).body.volume.h24 = 0 then 1
         else (sampleToken "a" 1000000).body.volume.h24) - 1) * 100 ∧
    (⟨"a", "SYM", 1600000, 1000000, 60, 3⟩ :
        VolumeSpikeEvent).previousVolume =
      (sampleToken "a" 1000000).body.volume.h24 ∧
    (⟨"a", "SYM", 1600000, 1000000, 60, 3⟩ : VolumeSpikeEvent).volume =
      (sampleToken "a" 1600000).body.volume.h24 :=
  ⟨⟨rfl, by
      norm_num [broadcastStep, mapGet, sampleToken, sampleBody,
        VOLUME_SPIKE_THRESHOLD]⟩,
   claim8_volume_spike.2.1 [("a", sampleToken "a" 1000000)]
     (sampleToken "a" 1600000) 3 (sampleToken "a" 1000000)
     ⟨"a", "SYM", 1600000, 1000000, 60, 3⟩ rfl
     (by norm_num [broadcastStep, mapGet, sampleToken, sampleBody,
        VOLUME_SPIKE_THRESHOLD])⟩

end Eterna
